import Mathlib

/-
  Verification of the Andersen field-sensitive inclusion-based pointer analysis
  (grievejia/andersen).

  This file shallowly embeds the data model and the operations of the analysis:
  node indices and the union-find merge machinery of AndersNodeFactory
  (NodeFactory.cpp), points-to sets (PtsSet.h, a sparse bit vector over node
  indices, modelled as a Finset of naturals resp. an ascending duplicate-free
  list for the executable solver), the constraint representation
  (Constraint.h), the constraint graph, worklist and solver of
  ConstraintSolving.cpp, the global-constraint collection of
  ConstraintCollect.cpp, the external-library summaries of
  ExternalLibrary.cpp, the HVN constraint-rewriting merge of
  ConstraintOptimize.cpp, the alias query of AndersenAA.cpp and the
  points-to query of Andersen.cpp.

  Two renderings of the online solver are used:
  * an executable, deterministic translation of Andersen::solveConstraints in
    its default configuration (the llvm::cl options EnableHCD and EnableLCD
    both default to false, so the HCD block at ConstraintSolving.cpp:558-589
    and the LCD blocks at 533-539 and 651-661 are skipped); maps are
    association lists ordered by key (std::map iterates in ascending key
    order) and sets are strictly ascending lists (SparseBitVector and
    std::set iterate in ascending order);
  * a small-step transition relation SolverStep on an abstract solver state,
    whose constructors are the atomic state mutations the solving loop
    performs, including the merges performed by lazy and hybrid cycle
    detection.  This rendering backs the quantified invariants (monotonicity,
    termination, merge soundness) that quantify over all intermediate states
    of a run.
-/

/-! ### Node indices (NodeFactory.h) -/

/-- NodeFactory.h: `typedef unsigned NodeIndex`. -/
abbrev NodeIndex := Nat

/-- NodeFactory.h line 57: `static const NodeIndex UniversalPtrIndex = 0`. -/
def UniversalPtrIndex : NodeIndex := 0

/-- NodeFactory.h line 58: `static const NodeIndex UniversalObjIndex = 1`. -/
def UniversalObjIndex : NodeIndex := 1

/-- NodeFactory.h line 59: `static const NodeIndex NullPtrIndex = 2`. -/
def NullPtrIndex : NodeIndex := 2

/-- NodeFactory.h line 60: `static const NodeIndex NullObjectIndex = 3`. -/
def NullObjectIndex : NodeIndex := 3

/-- NodeFactory.h line 46: the largest unsigned int is reserved for the
invalid index. -/
def InvalidIndex : NodeIndex := 4294967295

/-! ### Constraints (Constraint.h, NodeIndex-based revision used by the .cpp files) -/

/-- Constraint.h: the four constraint kinds. -/
inductive ConstraintTy where
  | copy
  | load
  | store
  | addr_of
deriving DecidableEq, Repr

/-- Constraint.h: a constraint `(type, dest, src, offset)`.  The offset
accompanies the load/store constraints that ExternalLibrary.cpp emits for
memcpy-like calls; the solver of ConstraintSolving.cpp never reads it. -/
structure AndersConstraint where
  type : ConstraintTy
  dest : NodeIndex
  src : NodeIndex
  offset : Nat
deriving DecidableEq, Repr

/-! ### Union-find merge (NodeFactory.cpp lines 211-228)

`mergeNode(n0, n1)` sets node n1's merge target to n0.  `getMergeTarget(n)`
follows merge targets until it reaches a self-pointing node; the memoizing
write `nodes[n].mergeTarget = ret` (line 224) is path compression and does
not change the returned representative, so the embedding walks the chain
without mutation.  The walk is bounded by an explicit fuel argument; every
use passes a fuel at least as large as the depth of the merge chains in
scope. -/

/-- NodeFactory.cpp lines 211-215: `nodes[n1].mergeTarget = n0`. -/
def mergeNode (mt : Nat → Nat) (n0 n1 : NodeIndex) : Nat → Nat :=
  Function.update mt n1 n0

/-- NodeFactory.cpp lines 217-228: follow merge targets to the
representative (fuel-bounded walk, path compression omitted). -/
def getMergeTargetW (mt : Nat → Nat) : Nat → NodeIndex → NodeIndex
  | 0, n => n
  | fuel + 1, n =>
    let ret := mt n
    if ret = n then n else getMergeTargetW mt fuel ret

/-! ### Points-to sets (PtsSet.h)

`AndersPtsSet` wraps an `llvm::SparseBitVector`: a finite set of unsigned
indices.  Modelled as a `Finset Nat`. -/

abbrev AndersPtsSet := Finset Nat

/-- PtsSet.h lines 17-20: membership test. -/
def AndersPtsSet.has (s : AndersPtsSet) (idx : Nat) : Bool :=
  decide (idx ∈ s)

/-- PtsSet.h lines 23-26: insert; the Bool reports whether the set changed. -/
def AndersPtsSet.insertChanged (s : AndersPtsSet) (idx : Nat) : Bool × AndersPtsSet :=
  (decide (idx ∉ s), insert idx s)

/-- PtsSet.h lines 41-44: `unionWith`; the Bool reports whether the set
changed. -/
def AndersPtsSet.unionWith (s other : AndersPtsSet) : Bool × AndersPtsSet :=
  (decide (¬ other ⊆ s), s ∪ other)

/-- PtsSet.h lines 51-54: `getSize`. -/
def AndersPtsSet.getSize (s : AndersPtsSet) : Nat := s.card

/-! ### The constraint graph (ConstraintSolving.cpp lines 23-209), set-valued
rendering used by `collapseNodes` and by the abstract solver state.  Each
graph node carries three successor edge sets. -/

/-- ConstraintSolving.cpp lines 23-108: a constraint-graph node's three edge
sets (the `idx` field is bookkeeping for iteration and is not modelled). -/
structure ConstraintGraphNode where
  copyEdges : Finset Nat
  loadEdges : Finset Nat
  storeEdges : Finset Nat
deriving DecidableEq

/-- ConstraintSolving.cpp lines 61-66: `mergeEdges` unions the three edge
sets of `other` into this node. -/
def ConstraintGraphNode.mergeEdges (a other : ConstraintGraphNode) : ConstraintGraphNode :=
  ⟨a.copyEdges ∪ other.copyEdges, a.loadEdges ∪ other.loadEdges,
    a.storeEdges ∪ other.storeEdges⟩

/-- The constraint graph: `std::map` from node index to graph node; absent
keys are modelled as `none`. -/
abbrev ConstraintGraphA := Nat → Option ConstraintGraphNode

/-- ConstraintSolving.cpp lines 163-178: `mergeNodes(dst, src)`.  If `src`
has no entry, nothing happens; if `dst` has no entry, the source node object
is inserted under the key `dst` (line 174 copies `srcNode`); otherwise the
edge sets of `src` are unioned into `dst`. -/
def cgMergeNodes (g : ConstraintGraphA) (dst src : Nat) : ConstraintGraphA :=
  match g src with
  | none => g
  | some srcNode =>
    match g dst with
    | none => Function.update g dst (some srcNode)
    | some dstNode => Function.update g dst (some (dstNode.mergeEdges srcNode))

/-- ConstraintSolving.cpp lines 180-183: `deleteNode`. -/
def cgDeleteNode (g : ConstraintGraphA) (idx : Nat) : ConstraintGraphA :=
  Function.update g idx none

/-! ### collapseNodes (ConstraintSolving.cpp lines 242-256) -/

/-- The solver-owned state that `collapseNodes` mutates: the factory's merge
targets, the points-to graph (`std::map<NodeIndex, AndersPtsSet>`, absent
keys modelled as `none`), and the constraint graph. -/
structure SolverCore where
  mt : Nat → Nat
  ptsGraph : Nat → Option AndersPtsSet
  cGraph : ConstraintGraphA

/-- ConstraintSolving.cpp lines 242-256: merge `src` into `dst`.  After the
early return for `dst == src`: `nodeFactory.mergeNode(dst, src)`; if the
points-to graph has an entry for `src`, `ptsGraph[dst]` (default-constructed
when absent) absorbs `ptsGraph[src]`; the constraint graph merges `src` into
`dst`; finally the entries of `src` are erased from both graphs. -/
def collapseNodes (dst src : NodeIndex) (s : SolverCore) : SolverCore :=
  if dst = src then s
  else
    let mt2 := mergeNode s.mt dst src
    let pts2 :=
      match s.ptsGraph src with
      | none => s.ptsGraph
      | some srcSet =>
        Function.update s.ptsGraph dst (some ((s.ptsGraph dst).getD ∅ ∪ srcSet))
    let cg2 := cgMergeNodes s.cGraph dst src
    ⟨mt2, Function.update pts2 src none, cgDeleteNode cg2 src⟩

/-- The points-to set the analysis associates with a node: the points-to
graph entry of its representative; absent keys are equivalent to the empty
set (spec section 3, "Points-to graph"). -/
def SolverCore.ptsOf (s : SolverCore) (fuel n : Nat) : AndersPtsSet :=
  (s.ptsGraph (getMergeTargetW s.mt fuel n)).getD ∅

/-! ### The alias query (AndersenAA.cpp lines 7-45) -/

/-- LLVM's `AliasAnalysis::AliasResult`. -/
inductive AliasResult where
  | NoAlias
  | MayAlias
  | PartialAlias
  | MustAlias
deriving DecidableEq, Repr

/-- AndersenAA.cpp lines 7-10: `(set.getSize() == 1) && (*set.begin() == i)`;
`begin()` of a sparse bit vector yields the smallest element. -/
def isSetContainingOnly (s : AndersPtsSet) (i : Nat) : Prop :=
  s.card = 1 ∧ s.min = (i : WithTop Nat)

instance (s : AndersPtsSet) (i : Nat) : Decidable (isSetContainingOnly s i) :=
  inferInstanceAs (Decidable (_ ∧ _))

/-- The analysis results the alias adapter reads: the value-node lookup
(`nodeFactory.getValueNodeFor`, `InvalidIndex` when the IR value is not
registered), the merge targets, and the points-to graph. -/
structure AAState where
  numNodes : Nat
  valueNode : Nat → NodeIndex
  mt : Nat → Nat
  ptsGraph : Nat → Option AndersPtsSet

/-- AndersenAA.cpp lines 12-45: `andersenAlias(v1, v2)`.  The iteration at
lines 36-42 computes whether some non-null element of `s1` is in `s2`;
sparse bit vectors iterate in ascending order. -/
def andersenAlias (st : AAState) (v1 v2 : Nat) : AliasResult :=
  let n1 := getMergeTargetW st.mt st.numNodes (st.valueNode v1)
  let n2 := getMergeTargetW st.mt st.numNodes (st.valueNode v2)
  if n1 = n2 then AliasResult.MustAlias
  else
    match st.ptsGraph n1, st.ptsGraph n2 with
    | none, _ => AliasResult.MayAlias
    | _, none => AliasResult.MayAlias
    | some s1, some s2 =>
      if isSetContainingOnly s1 NullObjectIndex ∨ isSetContainingOnly s2 NullObjectIndex then
        AliasResult.NoAlias
      else if s1.card = 1 ∧ s2.card = 1 ∧ s1.min = s2.min then
        AliasResult.MustAlias
      else if (s1.sort (· ≤ ·)).any (fun idx => idx ≠ NullObjectIndex && s2.has idx) then
        AliasResult.MayAlias
      else
        AliasResult.NoAlias

/-! ### The points-to query (Andersen.cpp lines 24-50) -/

/-- The analysis results `Andersen::getPointsToSet` reads; `valueForNode` is
the factory's IR back-reference for a node (`getValueForNode`), `none` when
the node has no associated IR value.  IR values are identified by naturals. -/
structure AndersenQueryState where
  numNodes : Nat
  valueNode : Nat → NodeIndex
  mt : Nat → Nat
  ptsGraph : Nat → Option AndersPtsSet
  valueForNode : Nat → Option Nat

/-- Andersen.cpp lines 24-50: `getPointsToSet(v, ptsSet)`.  Returns the Bool
result together with the final contents of the output vector `ptsSet` (left
untouched on the `false` path, cleared and then filled on the `true` path).
Sparse bit vectors iterate in ascending order. -/
def getPointsToSet (st : AndersenQueryState) (v : Nat) (ptsSet : List Nat) :
    Bool × List Nat :=
  let ptrIndex := st.valueNode v
  if ptrIndex = InvalidIndex ∨ ptrIndex = UniversalPtrIndex then (false, ptsSet)
  else
    let ptrTgt := getMergeTargetW st.mt st.numNodes ptrIndex
    match st.ptsGraph ptrTgt with
    | none => (true, [])
    | some s =>
      (true, (s.sort (· ≤ ·)).foldl
        (fun acc v2 =>
          if v2 = NullObjectIndex then acc
          else
            match st.valueForNode v2 with
            | none => acc
            | some val => acc ++ [val])
        [])

/-! ### A miniature IR for constants, globals and functions

The analysis walks the LLVM module.  The embedding models the slice of the
IR that the verified code paths inspect: pointer-relevant constants
(NodeFactory.cpp lines 94-191, ConstraintCollect.cpp lines 121-145) and the
per-global / per-function facts read by `collectConstraintsForGlobals`
(ConstraintCollect.cpp lines 59-119).  IR entities are identified by
naturals. -/

/-- The identity of an IR value that can own a node: a global variable, a
function, or a formal argument (function id paired with argument position). -/
inductive ValueId where
  | global (g : Nat)
  | func (f : Nat)
  | arg (f : Nat) (i : Nat)
deriving DecidableEq, Repr

/-- The constants the analysis inspects.  `gepC` carries the field number
that `constGEPtoFieldNum` (NodeFactory.cpp lines 230-236) derives for the
expression from the DataLayout and the struct oracle; layout introspection
itself is an external collaborator (spec section 1).  `intC` is a
non-pointer scalar constant; `aggC` a `ConstantStruct`, `ConstantArray` or
`ConstantDataSequential`; `aggZeroC` a `ConstantAggregateZero`;
`otherExprC` a constant expression whose opcode is outside the handled set. -/
inductive LConst where
  | nullC
  | undefC
  | intC
  | globalRef (g : Nat)
  | aggC (fields : List LConst)
  | aggZeroC
  | gepC (base : LConst) (fieldNum : Nat)
  | inttoptrC
  | ptrtointC
  | bitcastC (op : LConst)
  | otherExprC

/-- `llvm::Type::isSingleValueType` for the modelled constants: everything
except the aggregates. -/
def LConst.isSingleValueType : LConst → Bool
  | .aggC _ => false
  | .aggZeroC => false
  | _ => true

/-- `isa<PointerType>(c->getType())` for the modelled constants. -/
def LConst.isPointerTy : LConst → Bool
  | .intC => false
  | .aggC _ => false
  | .aggZeroC => false
  | _ => true

/-- `llvm::Constant::isNullValue` for the modelled aggregate constants (a
`ConstantStruct` with all-zero members is canonicalised by LLVM to
`ConstantAggregateZero`, so `aggC` is never a null value). -/
def LConst.isNullValue : LConst → Bool
  | .nullC => true
  | .aggZeroC => true
  | _ => false

/-- The node-allocating state of `AndersNodeFactory` (NodeFactory.h lines
42-123): the number of allocated nodes and the reverse maps.  The four
reserved nodes of the constructor (NodeFactory.cpp lines 15-29) give the
initial count 4.  The per-node data (kind, IR back-reference) is not needed
by the verified paths, only the next free index. -/
structure FactoryState where
  numNodes : Nat
  valueNodeMap : List (ValueId × NodeIndex)
  objNodeMap : List (ValueId × NodeIndex)
  returnMap : List (Nat × NodeIndex)
  varargMap : List (Nat × NodeIndex)
  gepMap : List ((NodeIndex × Nat) × NodeIndex)
deriving Repr

/-- The factory right after its constructor ran (NodeFactory.cpp 15-29). -/
def initFactory : FactoryState :=
  ⟨4, [], [], [], [], []⟩

/-- Association-list lookup (DenseMap / std::map `find`). -/
def assocLookup {κ α : Type} [DecidableEq κ] (k : κ) : List (κ × α) → Option α
  | [] => none
  | (k2, v) :: rest => if k = k2 then some v else assocLookup k rest

/-- NodeFactory.cpp lines 31-43: `createValueNode(val)`; appends a node and
registers the reverse mapping when an IR value is supplied. -/
def createValueNode (fs : FactoryState) (val : Option ValueId) : NodeIndex × FactoryState :=
  let nextIdx := fs.numNodes
  let vm := match val with
    | none => fs.valueNodeMap
    | some v => fs.valueNodeMap ++ [(v, nextIdx)]
  (nextIdx, ⟨fs.numNodes + 1, vm, fs.objNodeMap, fs.returnMap, fs.varargMap, fs.gepMap⟩)

/-- NodeFactory.cpp lines 45-56: `createObjectNode(val)`. -/
def createObjectNode (fs : FactoryState) (val : Option ValueId) : NodeIndex × FactoryState :=
  let nextIdx := fs.numNodes
  let om := match val with
    | none => fs.objNodeMap
    | some v => fs.objNodeMap ++ [(v, nextIdx)]
  (nextIdx, ⟨fs.numNodes + 1, fs.valueNodeMap, om, fs.returnMap, fs.varargMap, fs.gepMap⟩)

/-- NodeFactory.cpp lines 58-67: `createReturnNode(f)`. -/
def createReturnNode (fs : FactoryState) (f : Nat) : NodeIndex × FactoryState :=
  let nextIdx := fs.numNodes
  (nextIdx, ⟨fs.numNodes + 1, fs.valueNodeMap, fs.objNodeMap,
    fs.returnMap ++ [(f, nextIdx)], fs.varargMap, fs.gepMap⟩)

/-- NodeFactory.cpp lines 69-78: `createVarargNode(f)`. -/
def createVarargNode (fs : FactoryState) (f : Nat) : NodeIndex × FactoryState :=
  let nextIdx := fs.numNodes
  (nextIdx, ⟨fs.numNodes + 1, fs.valueNodeMap, fs.objNodeMap,
    fs.returnMap, fs.varargMap ++ [(f, nextIdx)], fs.gepMap⟩)

/-! ### Constant lookups (NodeFactory.cpp lines 80-191)

Both lookups return `none` exactly where the C++ aborts
(`llvm_unreachable`, a failed `assert`, or the UnhandledConstant error
path); the sentinel `InvalidIndex` of a plain missing-map lookup is an
ordinary returned value, as in the source. -/

/-- NodeFactory.cpp lines 157-191: `getObjectNodeForConstant`; the
`GlobalValue` case is `getObjectNodeFor` (lines 144-155), an `objNodeMap`
lookup returning `InvalidIndex` when absent; `getOffsetObjectNode(n, off)`
is `n + off` (NodeFactory.h lines 106-109).  `undefC` matches none of the
dispatched cases and reaches `llvm_unreachable("Unknown constant
pointer!")`. -/
def getObjectNodeForConstant (fs : FactoryState) : LConst → Option NodeIndex
  | .nullC => some NullObjectIndex
  | .globalRef g => some ((assocLookup (ValueId.global g) fs.objNodeMap).getD InvalidIndex)
  | .gepC base fieldNum =>
    match getObjectNodeForConstant fs base with
    | none => none
    | some baseNode =>
      if baseNode = InvalidIndex then none
      else if baseNode = NullObjectIndex ∨ baseNode = UniversalObjIndex then some baseNode
      else some (baseNode + fieldNum)
  | .inttoptrC => some UniversalObjIndex
  | .ptrtointC => some UniversalObjIndex
  | .bitcastC op => getObjectNodeForConstant fs op
  | _ => none

/-- NodeFactory.cpp lines 94-142: `getValueNodeForConstant`; the
`GlobalValue` case is `getValueNodeFor` (lines 80-92), a `valueNodeMap`
lookup returning `InvalidIndex` when absent.  The GEP case can create a
value node for the expression and memoize it in `gepMap`, so the factory
state is threaded through. -/
def getValueNodeForConstant (fs : FactoryState) : LConst → Option NodeIndex × FactoryState
  | .nullC => (some NullPtrIndex, fs)
  | .undefC => (some NullPtrIndex, fs)
  | .globalRef g => (some ((assocLookup (ValueId.global g) fs.valueNodeMap).getD InvalidIndex), fs)
  | .gepC base fieldNum =>
    match getValueNodeForConstant fs base with
    | (none, fs1) => (none, fs1)
    | (some baseNode, fs1) =>
      if baseNode = InvalidIndex then (none, fs1)
      else if baseNode = NullObjectIndex ∨ baseNode = UniversalObjIndex then (some baseNode, fs1)
      else if fieldNum = 0 then (some baseNode, fs1)
      else
        match assocLookup (baseNode, fieldNum) fs1.gepMap with
        | none =>
          let (gepIndex, fs2) := createValueNode fs1 none
          (some gepIndex, ⟨fs2.numNodes, fs2.valueNodeMap, fs2.objNodeMap,
            fs2.returnMap, fs2.varargMap, fs2.gepMap ++ [((baseNode, fieldNum), gepIndex)]⟩)
        | some gepIndex => (some gepIndex, fs1)
  | .inttoptrC => (some UniversalPtrIndex, fs)
  | .ptrtointC => (some UniversalPtrIndex, fs)
  | .bitcastC op => getValueNodeForConstant fs op
  | _ => (none, fs)

/-! ### Global-constraint collection (ConstraintCollect.cpp lines 16-145) -/

/-- The facts `collectConstraintsForGlobals` reads about a global variable:
its identity and its initializer (`none` when
`hasDefinitiveInitializer()` is false). -/
structure LGlobal where
  id : Nat
  init : Option LConst

/-- The facts `collectConstraintsForGlobals` reads about a function. -/
structure LFunction where
  id : Nat
  addrTaken : Bool
  isDeclOrIntrinsic : Bool
  retIsPtr : Bool
  isVarArg : Bool
  argIsPtr : List Bool

/-- A module: globals and functions, in iteration order. -/
structure LModule where
  globals : List LGlobal
  functions : List LFunction

/-- ConstraintCollect.cpp lines 121-145: `addGlobalInitializerConstraints`,
generalized to a list of initializers so that the recursion into the
operands of an aggregate (lines 142-143) is the recursion into the tail.
Returns `none` where the C++ asserts (an unhandled aggregate kind at line
140, or an `InvalidIndex` right-hand side at line 129).  A single-valued
pointer constant yields `AddrOf(objNode, getObjectNodeForConstant(c))`; a
single-valued non-pointer yields nothing; an aggregate zero initializer
yields `Copy(objNode, NullObject)`; a `ConstantStruct`/`ConstantArray`
recurses field by field onto the same `objNode` (the analysis is
field-insensitive here: the comment at line 139 says all objects in the
aggregate are pointed to by the first-field pointer).  The fuel argument
bounds the number of initializer nodes visited, keeping the recursion
structural; callers pass the size of the constant, which the recursion
never exhausts. -/
def addGlobalInitializerConstraintsList :
    Nat → FactoryState → NodeIndex → List LConst → Option (List AndersConstraint)
  | _, _, _, [] => some []
  | 0, _, _, _ :: _ => none
  | fuel + 1, fs, objNode, c :: rest =>
    let head : Option (List AndersConstraint) :=
      if c.isSingleValueType then
        if c.isPointerTy then
          match getObjectNodeForConstant fs c with
          | none => none
          | some rhsNode =>
            if rhsNode = InvalidIndex then none
            else some [⟨ConstraintTy.addr_of, objNode, rhsNode, 0⟩]
        else some []
      else if c.isNullValue then
        some [⟨ConstraintTy.copy, objNode, NullObjectIndex, 0⟩]
      else
        match c with
        | .aggC fields => addGlobalInitializerConstraintsList fuel fs objNode fields
        | _ => none
    match head, addGlobalInitializerConstraintsList fuel fs objNode rest with
    | some h, some r => some (h ++ r)
    | _, _ => none

/-- ConstraintCollect.cpp lines 121-145 for a single initializer; `fuel`
bounds the recursion depth as above. -/
def addGlobalInitializerConstraints (fuel : Nat) (fs : FactoryState)
    (objNode : NodeIndex) (c : LConst) : Option (List AndersConstraint) :=
  addGlobalInitializerConstraintsList fuel fs objNode [c]

/-- ConstraintCollect.cpp lines 59-119: `collectConstraintsForGlobals`.
Phase 1 (lines 61-67): for each global, create one value node and one
object node and emit `AddrOf(value, object)`.  Phase 2 (lines 69-99): for
each address-taken function create a value and an object node and emit
`AddrOf`; for each defined function create its return node (pointer return
type), vararg node (variadic) and value nodes for pointer-typed formals.
Phase 3 (lines 101-118): for each global with a definitive initializer emit
the initializer constraints, otherwise `Copy(object, UniversalObj)`.
Returns `none` where the C++ asserts; `initFuel` bounds the recursion
depth into initializers. -/
def collectConstraintsForGlobals (initFuel : Nat) (m : LModule) (fs0 : FactoryState) :
    Option (FactoryState × List AndersConstraint) :=
  let p1 := m.globals.foldl
    (fun (acc : FactoryState × List AndersConstraint) g =>
      let (fs, cons) := acc
      let (gVal, fs) := createValueNode fs (some (ValueId.global g.id))
      let (gObj, fs) := createObjectNode fs (some (ValueId.global g.id))
      (fs, cons ++ [⟨ConstraintTy.addr_of, gVal, gObj, 0⟩]))
    (fs0, [])
  let p2 := m.functions.foldl
    (fun (acc : FactoryState × List AndersConstraint) f =>
      let (fs, cons) := acc
      let (fs, cons) :=
        if f.addrTaken then
          let (fVal, fs) := createValueNode fs (some (ValueId.func f.id))
          let (fObj, fs) := createObjectNode fs (some (ValueId.func f.id))
          (fs, cons ++ [⟨ConstraintTy.addr_of, fVal, fObj, 0⟩])
        else (fs, cons)
      if f.isDeclOrIntrinsic then (fs, cons)
      else
        let fs := if f.retIsPtr then (createReturnNode fs f.id).2 else fs
        let fs := if f.isVarArg then (createVarargNode fs f.id).2 else fs
        let fs := (f.argIsPtr.enum.foldl
          (fun fs2 (p : Nat × Bool) =>
            if p.2 then (createValueNode fs2 (some (ValueId.arg f.id p.1))).2 else fs2)
          fs)
        (fs, cons))
    p1
  m.globals.foldl
    (fun (acc : Option (FactoryState × List AndersConstraint)) g =>
      match acc with
      | none => none
      | some (fs, cons) =>
        match assocLookup (ValueId.global g.id) fs.objNodeMap with
        | none => none
        | some gObj =>
          match g.init with
          | some c =>
            match addGlobalInitializerConstraints initFuel fs gObj c with
            | none => none
            | some newCons => some (fs, cons ++ newCons)
          | none => some (fs, cons ++ [⟨ConstraintTy.copy, gObj, UniversalObjIndex, 0⟩]))
    (some p2)

/-- ConstraintCollect.cpp lines 18-26: the three constraints
`collectConstraints` emits before anything else. -/
def bootstrapConstraints : List AndersConstraint :=
  [⟨ConstraintTy.addr_of, UniversalPtrIndex, UniversalObjIndex, 0⟩,
   ⟨ConstraintTy.store, UniversalObjIndex, UniversalObjIndex, 0⟩,
   ⟨ConstraintTy.addr_of, NullPtrIndex, NullObjectIndex, 0⟩]

/-! ### The memcpy/memmove library summary (ExternalLibrary.cpp lines 210-243) -/

/-- ExternalLibrary.cpp lines 210-243, the `memcpyFuncs` branch of
`addConstraintForExternalLibrary`, after the name lookup has matched and
the expanded size of the copied object has been obtained from the struct
oracle (lines 218-227): `arg0Index`/`arg1Index` are the value nodes of the
destination and source arguments; for each field index a fresh temporary
value node is created and `Load(temp, arg1, i)` and `Store(arg1, temp, i)`
are emitted (lines 229-235); if the call site has a value node,
`Copy(ret, arg0)` is emitted (lines 237-240). -/
def addConstraintForMemcpy (fs : FactoryState) (arg0Index arg1Index : NodeIndex)
    (size : Nat) (retIndex : Option NodeIndex) : FactoryState × List AndersConstraint :=
  let (fs, cons) := (List.range size).foldl
    (fun (acc : FactoryState × List AndersConstraint) i =>
      let (fs, cons) := acc
      let (tempIndex, fs) := createValueNode fs none
      (fs, cons ++ [⟨ConstraintTy.load, tempIndex, arg1Index, i⟩,
                    ⟨ConstraintTy.store, arg1Index, tempIndex, i⟩]))
    (fs, [])
  match retIndex with
  | none => (fs, cons)
  | some ret => (fs, cons ++ [⟨ConstraintTy.copy, ret, arg0Index, 0⟩])

/-! ### The executable solver (ConstraintSolving.cpp lines 409-675, default
configuration: EnableHCD = EnableLCD = false)

Sets of node indices (SparseBitVector, std::set) are strictly ascending
lists; maps (std::map) are association lists strictly ascending by key.
Both therefore iterate in the same order as the C++ containers. -/

/-- Insert into a strictly ascending list (bit-vector / std::set insert). -/
def insertAsc (x : Nat) : List Nat → List Nat
  | [] => [x]
  | y :: ys =>
    if x < y then x :: y :: ys
    else if x = y then y :: ys
    else y :: insertAsc x ys

/-- Union of ascending lists: insert every element of `other` (bit-vector
`operator|=`, std::set range insert). -/
def unionAsc (s other : List Nat) : List Nat :=
  other.foldl (fun acc y => insertAsc y acc) s

/-- Lookup in an association list ascending by key (std::map `find`). -/
def mapFind {α : Type} (k : Nat) : List (Nat × α) → Option α
  | [] => none
  | (k2, v) :: rest => if k = k2 then some v else mapFind k rest

/-- Update-or-insert in an association list ascending by key: when `k` is
absent, insert `(k, f dflt)` at its sorted position; when present, replace
the mapped value `v` by `f v`. -/
def mapUpsert {α : Type} (k : Nat) (dflt : α) (f : α → α) :
    List (Nat × α) → List (Nat × α)
  | [] => [(k, f dflt)]
  | (k2, v) :: rest =>
    if k < k2 then (k, f dflt) :: (k2, v) :: rest
    else if k = k2 then (k2, f v) :: rest
    else (k2, v) :: mapUpsert k dflt f rest

/-- Erase a key from an association list (std::map `erase`). -/
def mapErase {α : Type} (k : Nat) : List (Nat × α) → List (Nat × α)
  | [] => []
  | (k2, v) :: rest => if k = k2 then rest else (k2, v) :: mapErase k rest

/-- ConstraintSolving.cpp lines 23-108: a constraint-graph node, executable
rendering (edge sets as ascending lists). -/
structure CGNodeE where
  copyEdges : List Nat
  loadEdges : List Nat
  storeEdges : List Nat
deriving DecidableEq, Repr

/-- The executable constraint graph (`std::map<NodeIndex,
ConstraintGraphNode>`, lines 110-209). -/
abbrev CGraphE := List (Nat × CGNodeE)

/-- ConstraintSolving.cpp lines 121-133: `insertCopyEdge(src, dst)`; the
Bool is the C++ return value (true iff the edge is new). -/
def cgInsertCopyEdgeE (g : CGraphE) (src dst : Nat) : Bool × CGraphE :=
  match mapFind src g with
  | none =>
    (true, mapUpsert src ⟨[], [], []⟩ (fun n => ⟨insertAsc dst n.copyEdges, n.loadEdges, n.storeEdges⟩) g)
  | some n =>
    if dst ∈ n.copyEdges then (false, g)
    else (true, mapUpsert src ⟨[], [], []⟩ (fun n2 => ⟨insertAsc dst n2.copyEdges, n2.loadEdges, n2.storeEdges⟩) g)

/-- ConstraintSolving.cpp lines 135-147: `insertLoadEdge(src, dst)`. -/
def cgInsertLoadEdgeE (g : CGraphE) (src dst : Nat) : Bool × CGraphE :=
  match mapFind src g with
  | none =>
    (true, mapUpsert src ⟨[], [], []⟩ (fun n => ⟨n.copyEdges, insertAsc dst n.loadEdges, n.storeEdges⟩) g)
  | some n =>
    if dst ∈ n.loadEdges then (false, g)
    else (true, mapUpsert src ⟨[], [], []⟩ (fun n2 => ⟨n2.copyEdges, insertAsc dst n2.loadEdges, n2.storeEdges⟩) g)

/-- ConstraintSolving.cpp lines 149-161: `insertStoreEdge(src, dst)`. -/
def cgInsertStoreEdgeE (g : CGraphE) (src dst : Nat) : Bool × CGraphE :=
  match mapFind src g with
  | none =>
    (true, mapUpsert src ⟨[], [], []⟩ (fun n => ⟨n.copyEdges, n.loadEdges, insertAsc dst n.storeEdges⟩) g)
  | some n =>
    if dst ∈ n.storeEdges then (false, g)
    else (true, mapUpsert src ⟨[], [], []⟩ (fun n2 => ⟨n2.copyEdges, n2.loadEdges, insertAsc dst n2.storeEdges⟩) g)

/-- ConstraintSolving.cpp lines 75-78: `replaceCopyEdge(old, new)` on the
node with index `node`: remove the old endpoint, and insert the new one
only when the removal succeeded (the `&&` short-circuits). -/
def cgReplaceCopyEdgeE (g : CGraphE) (node oldIdx newIdx : Nat) : CGraphE :=
  mapUpsert node ⟨[], [], []⟩
    (fun n =>
      if oldIdx ∈ n.copyEdges then
        ⟨insertAsc newIdx (n.copyEdges.erase oldIdx), n.loadEdges, n.storeEdges⟩
      else n) g

/-- ConstraintSolving.cpp lines 79-82: `replaceLoadEdge(old, new)`. -/
def cgReplaceLoadEdgeE (g : CGraphE) (node oldIdx newIdx : Nat) : CGraphE :=
  mapUpsert node ⟨[], [], []⟩
    (fun n =>
      if oldIdx ∈ n.loadEdges then
        ⟨n.copyEdges, insertAsc newIdx (n.loadEdges.erase oldIdx), n.storeEdges⟩
      else n) g

/-- ConstraintSolving.cpp lines 83-86: `replaceStoreEdge(old, new)`. -/
def cgReplaceStoreEdgeE (g : CGraphE) (node oldIdx newIdx : Nat) : CGraphE :=
  mapUpsert node ⟨[], [], []⟩
    (fun n =>
      if oldIdx ∈ n.storeEdges then
        ⟨n.copyEdges, n.loadEdges, insertAsc newIdx (n.storeEdges.erase oldIdx)⟩
      else n) g

/-- The state `solveConstraints` threads through its loop: node count and
merge targets (the factory), the points-to graph, the constraint graph. -/
structure SolverStateE where
  numNodes : Nat
  mt : Nat → Nat
  ptsGraph : List (Nat × List Nat)
  cGraph : CGraphE

/-- ConstraintSolving.cpp lines 268-275: deduplicating FIFO enqueue. -/
def wlEnqueue (wl : List Nat) (elem : Nat) : List Nat :=
  if elem ∈ wl then wl else wl ++ [elem]

/-- ConstraintSolving.cpp lines 409-440: `buildConstraintGraph`.  An
`AddrOf` seeds the points-to graph with the untranslated source (the
comment at line 419: the address of a variable is not the address of its
merge target); the other kinds insert edges between merge targets. -/
def buildConstraintGraphE (constraints : List AndersConstraint) (st : SolverStateE) :
    SolverStateE :=
  constraints.foldl
    (fun st c =>
      let srcTgt := getMergeTargetW st.mt st.numNodes c.src
      let dstTgt := getMergeTargetW st.mt st.numNodes c.dest
      match c.type with
      | ConstraintTy.addr_of =>
        ⟨st.numNodes, st.mt, mapUpsert dstTgt [] (fun s => insertAsc c.src s) st.ptsGraph, st.cGraph⟩
      | ConstraintTy.load =>
        ⟨st.numNodes, st.mt, st.ptsGraph, (cgInsertLoadEdgeE st.cGraph srcTgt dstTgt).2⟩
      | ConstraintTy.store =>
        ⟨st.numNodes, st.mt, st.ptsGraph, (cgInsertStoreEdgeE st.cGraph dstTgt srcTgt).2⟩
      | ConstraintTy.copy =>
        ⟨st.numNodes, st.mt, st.ptsGraph, (cgInsertCopyEdgeE st.cGraph srcTgt dstTgt).2⟩)
    st

/-- ConstraintSolving.cpp lines 595-614: the load-edge pass for one element
`v` of the processed node's points-to set, followed by the deferred
`replaceLoadEdge` updates.  `vRep` is `getMergeTarget(v)`. -/
def processLoadsE (st : SolverStateE) (node vRep : Nat) (nextWL : List Nat) :
    SolverStateE × List Nat :=
  match mapFind node st.cGraph with
  | none => (st, nextWL)
  | some cNode =>
    let folded := cNode.loadEdges.foldl
      (fun (acc : SolverStateE × List Nat × List (Nat × Nat)) dst =>
        let (st, nwl, upd) := acc
        let tgtNode := getMergeTargetW st.mt st.numNodes dst
        let (changed, g) := cgInsertCopyEdgeE st.cGraph vRep tgtNode
        let st := ⟨st.numNodes, st.mt, st.ptsGraph, g⟩
        let nwl := if changed then wlEnqueue nwl vRep else nwl
        let upd := if tgtNode ≠ dst then upd ++ [(dst, tgtNode)] else upd
        (st, nwl, upd))
      (st, nextWL, [])
    let (st, nwl, upd) := folded
    let g := upd.foldl (fun g p => cgReplaceLoadEdgeE g node p.1 p.2) st.cGraph
    (⟨st.numNodes, st.mt, st.ptsGraph, g⟩, nwl)

/-- ConstraintSolving.cpp lines 616-632: the store-edge pass for one
element `v`, followed by the deferred `replaceStoreEdge` updates. -/
def processStoresE (st : SolverStateE) (node vRep : Nat) (nextWL : List Nat) :
    SolverStateE × List Nat :=
  match mapFind node st.cGraph with
  | none => (st, nextWL)
  | some cNode =>
    let folded := cNode.storeEdges.foldl
      (fun (acc : SolverStateE × List Nat × List (Nat × Nat)) dst =>
        let (st, nwl, upd) := acc
        let tgtNode := getMergeTargetW st.mt st.numNodes dst
        let (changed, g) := cgInsertCopyEdgeE st.cGraph tgtNode vRep
        let st := ⟨st.numNodes, st.mt, st.ptsGraph, g⟩
        let nwl := if changed then wlEnqueue nwl tgtNode else nwl
        let upd := if tgtNode ≠ dst then upd ++ [(dst, tgtNode)] else upd
        (st, nwl, upd))
      (st, nextWL, [])
    let (st, nwl, upd) := folded
    let g := upd.foldl (fun g p => cgReplaceStoreEdgeE g node p.1 p.2) st.cGraph
    (⟨st.numNodes, st.mt, st.ptsGraph, g⟩, nwl)

/-- ConstraintSolving.cpp lines 635-669: propagation along the copy edges
of the processed node (`ptsSet` is the node's points-to set, unchanged
throughout since self-edges are skipped), followed by the deferred
`replaceCopyEdge` updates.  The LCD branch at lines 651-661 is disabled
(EnableLCD defaults to false).  `ptsGraph[tgtNode]` default-constructs an
entry even when the union does not change it. -/
def processCopiesE (st : SolverStateE) (node : Nat) (ptsSet : List Nat)
    (nextWL : List Nat) : SolverStateE × List Nat :=
  match mapFind node st.cGraph with
  | none => (st, nextWL)
  | some cNode =>
    let folded := cNode.copyEdges.foldl
      (fun (acc : SolverStateE × List Nat × List (Nat × Nat)) dst =>
        let (st, nwl, upd) := acc
        let tgtNode := getMergeTargetW st.mt st.numNodes dst
        if node = tgtNode then (st, nwl, upd)
        else
          let tgtPts := (mapFind tgtNode st.ptsGraph).getD []
          let merged := unionAsc tgtPts ptsSet
          let isChanged := decide (merged ≠ tgtPts)
          let st : SolverStateE :=
            ⟨st.numNodes, st.mt, mapUpsert tgtNode [] (fun _ => merged) st.ptsGraph, st.cGraph⟩
          let nwl := if isChanged then wlEnqueue nwl tgtNode else nwl
          let upd := if tgtNode ≠ dst then upd ++ [(dst, tgtNode)] else upd
          (st, nwl, upd))
      (st, nextWL, [])
    let (st, nwl, upd) := folded
    let g := upd.foldl (fun g p => cgReplaceCopyEdgeE g node p.1 p.2) st.cGraph
    (⟨st.numNodes, st.mt, st.ptsGraph, g⟩, nwl)

/-- ConstraintSolving.cpp lines 543-670: process one dequeued node (default
configuration, so the HCD block at lines 557-589 does not run).  The node
is resolved to its merge target; nothing happens unless it has both a
constraint-graph entry and a points-to entry; then the load and store
passes run for each element of the points-to set in ascending order, and
finally the copy propagation runs. -/
def processNodeE (st : SolverStateE) (node0 : Nat) (nextWL : List Nat) :
    SolverStateE × List Nat :=
  let node := getMergeTargetW st.mt st.numNodes node0
  match mapFind node st.cGraph with
  | none => (st, nextWL)
  | some _ =>
    match mapFind node st.ptsGraph with
    | none => (st, nextWL)
    | some ptsSet =>
      let stepped := ptsSet.foldl
        (fun (acc : SolverStateE × List Nat) v =>
          let (st, nwl) := acc
          let vRep := getMergeTargetW st.mt st.numNodes v
          let (st, nwl) := processLoadsE st node vRep nwl
          processStoresE st node vRep nwl)
        (st, nextWL)
      let (st, nwl) := stepped
      processCopiesE st node ptsSet nwl

/-- ConstraintSolving.cpp lines 528-674: the double-worklist loop.  One
fuel unit is consumed per dequeue; when the current list empties the lists
are swapped (line 673); the loop stops when both are empty.  A run whose
final worklists are empty has genuinely reached the fixed point (more fuel
would not change the state). -/
def solveLoopE : Nat → SolverStateE → List Nat → List Nat →
    SolverStateE × List Nat × List Nat
  | 0, st, curr, next => (st, curr, next)
  | _ + 1, st, [], [] => (st, [], [])
  | fuel + 1, st, [], next => solveLoopE fuel st next []
  | fuel + 1, st, node :: rest, next =>
    let (st, next) := processNodeE st node next
    solveLoopE fuel st rest next

/-- ConstraintSolving.cpp lines 498-675: `solveConstraints` in the default
configuration (no HCD, no LCD).  Builds the constraint graph, seeds the
work list with every representative that has both a points-to entry and a
constraint-graph entry (lines 521-526, iterating the points-to map in
ascending key order), and runs the loop. -/
def solveConstraintsE (numNodes : Nat) (mt : Nat → Nat)
    (constraints : List AndersConstraint) (fuel : Nat) :
    SolverStateE × List Nat × List Nat :=
  let st := buildConstraintGraphE constraints ⟨numNodes, mt, [], []⟩
  let curr := st.ptsGraph.foldl
    (fun wl p =>
      if getMergeTargetW st.mt st.numNodes p.1 = p.1 ∧ (mapFind p.1 st.cGraph).isSome
      then wlEnqueue wl p.1 else wl)
    []
  solveLoopE fuel st curr []

/-! ### The HVN rewrite merge (ConstraintOptimize.cpp lines 227-242)

After HVN labelling, `rewriteConstraint` first merges, via the node
factory, every representative VAR node whose non-zero pointer-equivalence
label was already claimed by an earlier representative.  `revLabelMap` is a
vector initialised with `InvalidIndex`, modelled as an optional map.
`optimizeConstraints` (line 573) notes that no two nodes have been merged
before HVN runs, so the merge-target map is the identity when this loop
starts. -/

/-- ConstraintOptimize.cpp lines 229-241: the body of the merge loop for
one node index `i`: skip non-representatives; the first representative
seen with a given label claims it in `revLabelMap`; a later representative
with the same non-zero label is merged into the claiming node
(`nodeFactory.mergeNode(revLabelMap[iLabel], i)`). -/
def hvnRewriteMergeStep (numNodes : Nat) (peLabel : Nat → Nat)
    (acc : (Nat → Nat) × (Nat → Option Nat)) (i : Nat) :
    (Nat → Nat) × (Nat → Option Nat) :=
  let (mt, revLabelMap) := acc
  if getMergeTargetW mt numNodes i ≠ i then (mt, revLabelMap)
  else
    let iLabel := peLabel i
    match revLabelMap iLabel with
    | none => (mt, Function.update revLabelMap iLabel (some i))
    | some j => if iLabel ≠ 0 then (mergeNode mt j i, revLabelMap) else (mt, revLabelMap)

/-- ConstraintOptimize.cpp lines 227-242: scan the node indices in
ascending order, threading the merge targets and the label-claim map
(`revLabelMap`, a vector initialised with `InvalidIndex`, modelled as an
optional map). -/
def hvnRewriteMerge (numNodes : Nat) (peLabel : Nat → Nat) (mt0 : Nat → Nat) :
    (Nat → Nat) × (Nat → Option Nat) :=
  (List.range numNodes).foldl (hvnRewriteMergeStep numNodes peLabel) (mt0, fun _ => none)

/-- The invariant of the HVN merge loop after the first `k` indices have
been processed, starting from the identity merge-target map (no nodes are
merged before HVN runs, ConstraintOptimize.cpp line 573): re-parented nodes
are processed nodes whose target is a smaller self-pointing claimed node,
claimed nodes are processed self-pointing nodes carrying their label, and
every processed node with a non-zero label reaches the node that claimed
its label. -/
def HvnInv (peLabel : Nat → Nat) (k : Nat) (mt : Nat → Nat)
    (rev : Nat → Option Nat) : Prop :=
  (∀ x, mt x ≠ x → x < k ∧ mt x < x ∧ mt (mt x) = mt x) ∧
  (∀ l c, rev l = some c → c < k ∧ mt c = c ∧ peLabel c = l) ∧
  (∀ i, i < k → peLabel i ≠ 0 →
    ∃ c, rev (peLabel i) = some c ∧ (mt i = c ∨ i = c))

/-! ### The abstract solver state and its transition relation
(ConstraintSolving.cpp lines 498-675, all configurations)

The quantified invariants of the spec (monotonicity, merge soundness,
termination) speak about every intermediate state of a run of
`solveConstraints`, with lazy and hybrid cycle detection enabled.  The
state is rendered with total maps: a points-to set or an edge set of an
absent key is the empty set, and `rep` is the representative map computed
by `getMergeTarget` (an idempotent function: path compression keeps merge
chains shallow and never changes the representative).  Each constructor of
`SolverStep` is one atomic mutation the solving loop performs, together
with the worklist bookkeeping attached to it in the source. -/

structure AState where
  numNodes : Nat
  rep : Nat → Nat
  pts : Nat → Finset Nat
  copyE : Nat → Finset Nat
  loadE : Nat → Finset Nat
  storeE : Nat → Finset Nat
  wl : Finset Nat
  cand : Finset Nat
  checked : Finset (Nat × Nat)

/-- ConstraintSolving.cpp lines 242-256 in the abstract rendering: merging
`src` into `dst` redirects every node represented by `src` to `dst`, the
points-to set and the edge sets of `dst` absorb those of `src`, and the
entries of `src` are dropped (their keys are no longer representatives).
`enq` is the set of nodes the caller enqueues with the merge (the HCD
branch enqueues the collapse target, line 584). -/
def collapseNodesA (dst src : Nat) (enq : Finset Nat) (s : AState) : AState :=
  ⟨s.numNodes,
   fun n => if s.rep n = src then dst else s.rep n,
   Function.update (Function.update s.pts dst (s.pts dst ∪ s.pts src)) src ∅,
   Function.update (Function.update s.copyE dst (s.copyE dst ∪ s.copyE src)) src ∅,
   Function.update (Function.update s.loadE dst (s.loadE dst ∪ s.loadE src)) src ∅,
   Function.update (Function.update s.storeE dst (s.storeE dst ∪ s.storeE src)) src ∅,
   s.wl ∪ enq, s.cand, s.checked⟩

/-- One atomic mutation of the solving loop. -/
inductive SolverStep : AState → AState → Prop where
  /-- Lines 637-650: propagate the points-to set of the processed
  representative `node` along a copy edge to the representative `tgt`; the
  target is enqueued exactly when its set strictly grows, and the
  propagation step is a mutation only in that case. -/
  | propagate (s : AState) (node tgt : Nat)
      (hn : node < s.numNodes) (ht : tgt < s.numNodes)
      (hrn : s.rep node = node) (hrt : s.rep tgt = tgt) (hne : node ≠ tgt)
      (hedge : tgt ∈ s.copyE node)
      (hgrow : ¬ s.pts node ⊆ s.pts tgt) :
      SolverStep s
        ⟨s.numNodes, s.rep, Function.update s.pts tgt (s.pts tgt ∪ s.pts node),
         s.copyE, s.loadE, s.storeE, insert tgt s.wl, s.cand, s.checked⟩
  /-- Lines 596-604 and 616-623: processing a load edge inserts the copy
  edge `vRep → rep(dst)` and enqueues `vRep`; processing a store edge
  inserts the copy edge `rep(dst) → vRep` and enqueues `rep(dst)`.  In both
  shapes the inserted edge runs from the representative `a` to the
  representative `b`, the edge is new, and its source `a` is enqueued. -/
  | addCopyEdge (s : AState) (a b : Nat)
      (ha : a < s.numNodes) (hb : b < s.numNodes)
      (hra : s.rep a = a) (hrb : s.rep b = b)
      (hnew : b ∉ s.copyE a) :
      SolverStep s
        ⟨s.numNodes, s.rep, s.pts,
         Function.update s.copyE a (insert b (s.copyE a)),
         s.loadE, s.storeE, insert a s.wl, s.cand, s.checked⟩
  /-- Lines 663-669: rewrite a stale copy-edge endpoint discovered during
  iteration: `old` is replaced by its current representative. -/
  | replaceCopy (s : AState) (a old : Nat)
      (ha : a < s.numNodes) (hold : old ∈ s.copyE a) (hstale : s.rep old ≠ old) :
      SolverStep s
        ⟨s.numNodes, s.rep, s.pts,
         Function.update s.copyE a (insert (s.rep old) ((s.copyE a).erase old)),
         s.loadE, s.storeE, s.wl, s.cand, s.checked⟩
  /-- Lines 607-613: rewrite a stale load-edge endpoint. -/
  | replaceLoad (s : AState) (a old : Nat)
      (ha : a < s.numNodes) (hold : old ∈ s.loadE a) (hstale : s.rep old ≠ old) :
      SolverStep s
        ⟨s.numNodes, s.rep, s.pts, s.copyE,
         Function.update s.loadE a (insert (s.rep old) ((s.loadE a).erase old)),
         s.storeE, s.wl, s.cand, s.checked⟩
  /-- Lines 625-632: rewrite a stale store-edge endpoint. -/
  | replaceStore (s : AState) (a old : Nat)
      (ha : a < s.numNodes) (hold : old ∈ s.storeE a) (hstale : s.rep old ≠ old) :
      SolverStep s
        ⟨s.numNodes, s.rep, s.pts, s.copyE, s.loadE,
         Function.update s.storeE a (insert (s.rep old) ((s.storeE a).erase old)),
         s.wl, s.cand, s.checked⟩
  /-- Lines 461, 575 and 580: a collapse of two distinct representatives,
  performed by the online cycle detector or the HCD fast path; `enq` is
  the accompanying enqueue (line 584), a set of valid node indices. -/
  | merge (s : AState) (dst src : Nat) (enq : Finset Nat)
      (hd : dst < s.numNodes) (hs : src < s.numNodes)
      (hrd : s.rep dst = dst) (hrs : s.rep src = src) (hne : dst ≠ src)
      (henq : ∀ x ∈ enq, x < s.numNodes) :
      SolverStep s (collapseNodesA dst src enq s)
  /-- Lines 651-661: lazy cycle detection records a cycle candidate: the
  copy edge `node → tgt` has not been checked before, the two points-to
  sets are equal, the edge is marked checked and `tgt` becomes a
  candidate. -/
  | lcdCandidate (s : AState) (node tgt : Nat)
      (hn : node < s.numNodes) (ht : tgt < s.numNodes)
      (hedge : tgt ∈ s.copyE node) (heq : s.pts node = s.pts tgt)
      (hnew : (node, tgt) ∉ s.checked) :
      SolverStep s
        ⟨s.numNodes, s.rep, s.pts, s.copyE, s.loadE, s.storeE,
         s.wl, insert tgt s.cand, insert (node, tgt) s.checked⟩
  /-- Lines 533-539: after the online detector ran over the candidate set,
  the set is cleared. -/
  | lcdClear (s : AState) (hne : s.cand ≠ ∅) :
      SolverStep s
        ⟨s.numNodes, s.rep, s.pts, s.copyE, s.loadE, s.storeE,
         s.wl, ∅, s.checked⟩
  /-- Line 543: dequeue a node from the worklist (its processing is the
  surrounding steps). -/
  | retire (s : AState) (n : Nat) (hn : n ∈ s.wl) :
      SolverStep s
        ⟨s.numNodes, s.rep, s.pts, s.copyE, s.loadE, s.storeE,
         s.wl.erase n, s.cand, s.checked⟩

/-- Well-formedness of an abstract solver state: representatives are
idempotent valid indices, and every points-to element and edge endpoint is
a valid node index.  `buildConstraintGraph` establishes this (points-to
elements and edge endpoints are node indices of the factory) and every
step preserves it. -/
def AStateWF (s : AState) : Prop :=
  (∀ n, n < s.numNodes → s.rep n < s.numNodes ∧ s.rep (s.rep n) = s.rep n) ∧
  (∀ n, n < s.numNodes →
    s.pts n ⊆ Finset.range s.numNodes ∧
    s.copyE n ⊆ Finset.range s.numNodes ∧
    s.loadE n ⊆ Finset.range s.numNodes ∧
    s.storeE n ⊆ Finset.range s.numNodes)

/-- The number of live representatives; merges strictly decrease it. -/
def repCount (s : AState) : Nat :=
  ((Finset.range s.numNodes).filter (fun n => s.rep n = n)).card

/-- The number of stale edge endpoints (endpoints that are no longer
representatives); endpoint rewrites strictly decrease it. -/
def staleCount (s : AState) : Nat :=
  ∑ a ∈ Finset.range s.numNodes,
    (((s.copyE a).filter (fun e => s.rep e ≠ e)).card +
     ((s.loadE a).filter (fun e => s.rep e ≠ e)).card +
     ((s.storeE a).filter (fun e => s.rep e ≠ e)).card)

/-- Remaining capacity of the points-to sets and edge sets inside the
universe of valid indices; propagation and edge insertion strictly
decrease it. -/
def capCount (s : AState) : Nat :=
  ∑ a ∈ Finset.range s.numNodes,
    ((Finset.range s.numNodes \ s.pts a).card +
     (Finset.range s.numNodes \ s.copyE a).card +
     (Finset.range s.numNodes \ s.loadE a).card +
     (Finset.range s.numNodes \ s.storeE a).card)

/-- Remaining capacity of the checked-edge set of lazy cycle detection. -/
def checkedCap (s : AState) : Nat :=
  ((Finset.range s.numNodes ×ˢ Finset.range s.numNodes) \ s.checked).card

/-- Candidate-set size plus worklist size. -/
def candWlCount (s : AState) : Nat :=
  s.cand.card + s.wl.card

/-- The termination measure: a five-component lexicographic tuple. -/
def solverMeasure (s : AState) : Nat × Nat × Nat × Nat × Nat :=
  (repCount s, staleCount s, capCount s, checkedCap s, candWlCount s)

/-- Lexicographic order on the five-component measure. -/
def MeasureLt : Nat × Nat × Nat × Nat × Nat → Nat × Nat × Nat × Nat × Nat → Prop :=
  Prod.Lex (· < ·) (Prod.Lex (· < ·) (Prod.Lex (· < ·) (Prod.Lex (· < ·) (· < ·))))

/-! ### Concrete instances used by the claim theorems

Each instance is a small program state or constraint vector that the
constraint collector produces for a correspondingly small input module; the
solver is then run on it.  Node indices 0-3 are the reserved nodes. -/

/-- The claim "Universal absorption" as stated, on the final state of an
executable solver run: every points-to graph entry that contains
`UniversalObj` is the singleton of `UniversalObj`.  (Stated from the spec's
words, to be compared with the behaviour of the embedded code.) -/
def UniversalAbsorptionClaim (st : SolverStateE) : Prop :=
  ∀ p ∈ st.ptsGraph, UniversalObjIndex ∈ p.2 → p.2 = [UniversalObjIndex]

/-- Constraints collected for a module whose body is
`x = alloca; y = inttoptr(<unknown integer>)` merged into one value (a
`phi`/`bitcast` chain collapses to the same pattern): node 4 is the value
node of `x`, node 5 its stack object.  `collectConstraintsForInstruction`
emits `AddrOf(4, 5)` for the alloca (ConstraintCollect.cpp lines 151-158)
and `Copy(4, UniversalPtr)` for the unmatched inttoptr (line 282). -/
def c1Constraints : List AndersConstraint :=
  bootstrapConstraints ++
  [⟨ConstraintTy.addr_of, 4, 5, 0⟩,
   ⟨ConstraintTy.copy, 4, UniversalPtrIndex, 0⟩]

/-- The solver run for the universal-absorption scenario (6 nodes, no
merges before solving, ample fuel). -/
def c1Run : SolverStateE × List Nat × List Nat :=
  solveConstraintsE 6 id c1Constraints 64

/-- The module of scenario S4: globals `a` (id 0) and `b` (id 1) with
scalar initializers, and a struct global `g` (id 2) of type
`{i32*, i32*}` with initializer `{&a, &b}`. -/
def c2Module : LModule :=
  ⟨[⟨0, some LConst.intC⟩, ⟨1, some LConst.intC⟩,
    ⟨2, some (LConst.aggC [LConst.globalRef 0, LConst.globalRef 1])⟩], []⟩

/-- The result of running `collectConstraintsForGlobals` on that module. -/
def c2Collect : Option (FactoryState × List AndersConstraint) :=
  collectConstraintsForGlobals 64 c2Module initFactory

/-- The solver run on the collected constraints (bootstrap constraints
first, as `collectConstraints` emits them before the globals phase). -/
def c2Run : SolverStateE × List Nat × List Nat :=
  match c2Collect with
  | none => (⟨0, id, [], []⟩, [], [])
  | some (fs, cons) => solveConstraintsE fs.numNodes id (bootstrapConstraints ++ cons) 64

/-- The factory state at the memcpy call site of scenario S6: ten nodes
already exist; 4 is the value node of the destination pointer `d`, 5 its
object, 6 the value node of the source pointer `s`, 7 its object, 8 the
value node of `x` (an alloca whose address was stored through `s`), 9 the
object of `x`. -/
def c3Factory : FactoryState := ⟨10, [], [], [], [], []⟩

/-- The constraints `addConstraintForExternalLibrary` emits for
`memcpy(d, s, ..)` with expanded size 1 and a non-pointer-returning call
site: the temp node 10 is created, and `Load(10, 6, 0)`, `Store(6, 10, 0)`
are emitted. -/
def c3Memcpy : FactoryState × List AndersConstraint :=
  addConstraintForMemcpy c3Factory 4 6 1 none

/-- The full constraint vector for the S6 scenario: bootstrap constraints,
`AddrOf` for `d`, `s` and `x`, the `Store(s, x)` of `*s = &x`, and the
memcpy summary. -/
def c3Constraints : List AndersConstraint :=
  bootstrapConstraints ++
  [⟨ConstraintTy.addr_of, 4, 5, 0⟩,
   ⟨ConstraintTy.addr_of, 6, 7, 0⟩,
   ⟨ConstraintTy.addr_of, 8, 9, 0⟩,
   ⟨ConstraintTy.store, 6, 8, 0⟩] ++ c3Memcpy.2

/-- The solver run for the S6 scenario. -/
def c3Run : SolverStateE × List Nat × List Nat :=
  solveConstraintsE c3Memcpy.1.numNodes id c3Constraints 64

/-- The same scenario with the store constraint the claim describes
(destination `arg0` instead of source `arg1`): `Load(10, 6, 0)`,
`Store(4, 10, 0)`.  This is what the summary would have to emit for the
claimed guarantee to hold. -/
def c3FixedConstraints : List AndersConstraint :=
  bootstrapConstraints ++
  [⟨ConstraintTy.addr_of, 4, 5, 0⟩,
   ⟨ConstraintTy.addr_of, 6, 7, 0⟩,
   ⟨ConstraintTy.addr_of, 8, 9, 0⟩,
   ⟨ConstraintTy.store, 6, 8, 0⟩,
   ⟨ConstraintTy.load, 10, 6, 0⟩,
   ⟨ConstraintTy.store, 4, 10, 0⟩]

/-- The solver run for the corrected store destination. -/
def c3FixedRun : SolverStateE × List Nat × List Nat :=
  solveConstraintsE 11 id c3FixedConstraints 64

/-- A two-node merge instance for the merge-soundness witness: nodes 4 and
5 are representatives with points-to sets `{6}` and `{7, 8}`. -/
def c5State : SolverCore :=
  ⟨id,
   fun n => if n = 4 then some {6} else if n = 5 then some {7, 8} else none,
   fun _ => none⟩

/-- The factory state produced by the globals phase on `c2Module`. -/
def c2Fs : FactoryState := (c2Collect.getD (initFactory, [])).1

/-- The object node of the struct global `g`. -/
def c2GObj : Nat := (assocLookup (ValueId.global 2) c2Fs.objNodeMap).getD 0

/-- The object node of the global `a`. -/
def c2OA : Nat := (assocLookup (ValueId.global 0) c2Fs.objNodeMap).getD 0

/-- The object node of the global `b`. -/
def c2OB : Nat := (assocLookup (ValueId.global 1) c2Fs.objNodeMap).getD 0

/-- The C2 claim instantiated at the S4 module, stated from the spec's
words: collection succeeds, the expanded size 2 of `{i32 ptr, i32 ptr}`
reserves two contiguous object indices for `g` (so `obj(g) + 1` is still
inside the arena), and after solving each field object points exactly to
the object of its own initializer. -/
def C2GlobalsClaim : Prop :=
  c2Collect.isSome ∧
  c2GObj + 1 < c2Fs.numNodes ∧
  mapFind c2GObj c2Run.1.ptsGraph = some [c2OA] ∧
  mapFind (c2GObj + 1) c2Run.1.ptsGraph = some [c2OB]

/-- A query state in which IR value 0 resolves to `UniversalPtr` (as the
value-node lookup does for an `IntToPtr` constant expression): a registered
(known) pointer whose node is the universal pointer. -/
def c9State : AndersenQueryState :=
  ⟨6,
   fun v => if v = 0 then UniversalPtrIndex else InvalidIndex,
   id,
   fun n => if n = 0 then some ({1} : Finset Nat) else none,
   fun _ => none⟩

/-- A concrete alias-query state: IR values 0 and 1 map to nodes 4 and 5
with disjoint points-to sets. -/
def c7State : AAState :=
  ⟨6,
   fun v => if v = 0 then 4 else if v = 1 then 5 else InvalidIndex,
   id,
   fun n => if n = 4 then some ({8} : Finset Nat) else if n = 5 then some ({9} : Finset Nat) else none⟩

/-- A two-node abstract solver state: node 0 points to object 1 and has a
copy edge to node 1, whose points-to set is still empty. -/
def c4State : AState :=
  ⟨2, id,
   fun n => if n = 0 then ({1} : Finset Nat) else ∅,
   fun n => if n = 0 then ({1} : Finset Nat) else ∅,
   fun _ => ∅, fun _ => ∅, {0}, ∅, ∅⟩

/-- `c4State` after the solver propagated `pts[0]` along the copy edge
`0 → 1` and enqueued node 1. -/
def c4StateAfter : AState :=
  ⟨2, c4State.rep, Function.update c4State.pts 1 (c4State.pts 1 ∪ c4State.pts 0),
   c4State.copyE, c4State.loadE, c4State.storeE, insert 1 c4State.wl,
   c4State.cand, c4State.checked⟩

/-- A pointer-equivalence labelling for the C8 witness: nodes 3 and 4
share the non-zero label 1, all other nodes are non-pointers. -/
def c8Pe : Nat → Nat := fun n => if n = 3 ∨ n = 4 then 1 else 0

/-- The abstract solver state entered after the HVN merge loop ran on
`c8Pe` over five nodes. -/
def c8State : AState :=
  ⟨5, fun n => getMergeTargetW (hvnRewriteMerge 5 c8Pe id).1 5 n,
   fun _ => ∅, fun _ => ∅, fun _ => ∅, fun _ => ∅, ∅, ∅, ∅⟩

/-! ## Theorems -/

/-- A node whose merge target is itself is its own representative, at any
fuel. -/
theorem getMergeTargetW_fix (mt : Nat → Nat) (fuel n : Nat) (h : mt n = n) :
    getMergeTargetW mt fuel n = n := by
  cases fuel <;> simp [getMergeTargetW, h]

/-- C5: after `collapseNodes(a, b)` on two distinct representatives `a` and
`b`, the merge targets of `a` and `b` coincide, and the points-to set of
the common representative (absent entries read as empty) is the union of
the two points-to sets held before the merge. -/
theorem c5_collapse_merges_and_unions (s : SolverCore) (a b : NodeIndex) (fuel : Nat)
    (ha : s.mt a = a) (hb : s.mt b = b) (hab : a ≠ b) (hfuel : 1 ≤ fuel) :
    getMergeTargetW (collapseNodes a b s).mt fuel a =
      getMergeTargetW (collapseNodes a b s).mt fuel b ∧
    ((collapseNodes a b s).ptsGraph (getMergeTargetW (collapseNodes a b s).mt fuel a)).getD ∅ =
      (s.ptsGraph a).getD ∅ ∪ (s.ptsGraph b).getD ∅ := by
  have hmt : (collapseNodes a b s).mt = Function.update s.mt b a := by
    simp [collapseNodes, hab, mergeNode]
  have hmta : (collapseNodes a b s).mt a = a := by
    rw [hmt, Function.update_apply, if_neg hab, ha]
  have hwa : getMergeTargetW (collapseNodes a b s).mt fuel a = a :=
    getMergeTargetW_fix _ fuel a hmta
  have hwb : getMergeTargetW (collapseNodes a b s).mt fuel b = a := by
    obtain ⟨k, rfl⟩ : ∃ k, fuel = k + 1 := ⟨fuel - 1, by omega⟩
    have hmtb : (collapseNodes a b s).mt b = a := by
      rw [hmt, Function.update_apply, if_pos rfl]
    simp only [getMergeTargetW, hmtb]
    rcases eq_or_ne a b with h | h
    · exact absurd h hab
    · rw [if_neg h]
      exact getMergeTargetW_fix _ k a hmta
  refine ⟨by rw [hwa, hwb], ?_⟩
  rw [hwa]
  rcases hpb : s.ptsGraph b with _ | T
  · have : (collapseNodes a b s).ptsGraph a = s.ptsGraph a := by
      simp [collapseNodes, hab, hpb, Function.update_apply]
    rw [this]
    simp
  · have : (collapseNodes a b s).ptsGraph a = some ((s.ptsGraph a).getD ∅ ∪ T) := by
      simp [collapseNodes, hab, hpb, Function.update_apply, Ne.symm hab]
    rw [this]
    simp

/-- Witness for C5 at the concrete instance `c5State`, `a = 4`, `b = 5`. -/
theorem c5_collapse_merges_and_unions_witness :
    getMergeTargetW (collapseNodes 4 5 c5State).mt 1 4 =
      getMergeTargetW (collapseNodes 4 5 c5State).mt 1 5 ∧
    ((collapseNodes 4 5 c5State).ptsGraph (getMergeTargetW (collapseNodes 4 5 c5State).mt 1 4)).getD ∅ =
      (c5State.ptsGraph 4).getD ∅ ∪ (c5State.ptsGraph 5).getD ∅ :=
  c5_collapse_merges_and_unions c5State 4 5 1 rfl rfl (by decide) (by decide)

/-- C1 counterexample: after `solveConstraints` returns on the
inttoptr-plus-alloca constraint vector, the universal-absorption claim is
false: node 4's points-to set contains `UniversalObj` but is not the
singleton of it. -/
theorem c1_universal_absorption_counterexample :
    ¬ UniversalAbsorptionClaim c1Run.1 := by
  unfold UniversalAbsorptionClaim
  decide

/-- C1 amended: the solver performs no universal-object collapse.  The run
reaches quiescence (both worklists empty, so more fuel would not change
anything) with node 4's points-to set equal to
`{UniversalObj, 5}`: a set may contain `UniversalObj` strictly alongside
other objects at quiescence. -/
theorem c1_amended_no_universal_collapse :
    c1Run.2.1 = [] ∧ c1Run.2.2 = [] ∧
    mapFind 4 c1Run.1.ptsGraph = some [UniversalObjIndex, 5] ∧
    [UniversalObjIndex, 5] ≠ [UniversalObjIndex] := by decide

/-- C2 counterexample: on the S4 module the globals phase does not reserve
`expanded_size` object indices and the field objects do not each point to
their own initializer's object. -/
theorem c2_globals_expansion_counterexample : ¬ C2GlobalsClaim := by
  unfold C2GlobalsClaim
  decide

/-- C2 amended: the globals phase creates exactly one object node per
global (`c2Fs.numNodes = 10`: four reserved nodes plus one value and one
object node for each of the three globals), the aggregate initializer
attaches every pointer field to that single object, so at quiescence
`pts(obj(g)) = [o_a, o_b]`; a GEP constant selecting field 1 of `g`
resolves to the unreserved index `obj(g) + 1 = numNodes`, outside the
arena. -/
theorem c2_amended_single_object_per_global :
    c2Fs.numNodes = 10 ∧ c2GObj = 9 ∧ c2OA = 5 ∧ c2OB = 7 ∧
    mapFind c2GObj c2Run.1.ptsGraph = some [c2OA, c2OB] ∧
    getObjectNodeForConstant c2Fs (LConst.gepC (LConst.globalRef 2) 1) = some c2Fs.numNodes ∧
    c2Run.2.1 = [] ∧ c2Run.2.2 = [] := by decide

/-- C3: evaluation of the memcpy summary at the failing input.  The
summary emits `Load(temp, arg1)` and `Store(arg1, temp)` — the store
destination is the source argument — so after solving, the object of the
destination pointer (node 5) has gained nothing (no points-to entry at
all), while the object of the source pointer (node 7) reaches `o_x = 9`.
With the store destination the claim requires (`Store(arg0, temp)`), the
destination object does gain `o_x`. -/
theorem c3_memcpy_dest_gains_nothing :
    c3Memcpy.2 = [⟨ConstraintTy.load, 10, 6, 0⟩, ⟨ConstraintTy.store, 6, 10, 0⟩] ∧
    c3Run.2.1 = [] ∧ c3Run.2.2 = [] ∧
    mapFind 5 c3Run.1.ptsGraph = none ∧
    mapFind 7 c3Run.1.ptsGraph = some [9] ∧
    c3FixedRun.2.1 = [] ∧ c3FixedRun.2.2 = [] ∧
    mapFind 5 c3FixedRun.1.ptsGraph = some [9] := by decide

/-- C10 counterexample: the object-node lookup does not handle an undef
pointer constant: it falls through every dispatched case of
`getObjectNodeForConstant` and reaches `llvm_unreachable("Unknown constant
pointer!")` (modelled as `none`), instead of yielding the null object the
claim describes. -/
theorem c10_undef_object_counterexample :
    getObjectNodeForConstant initFactory LConst.undefC ≠ some NullObjectIndex := by
  decide

/-- C10 amended: the structural resolution of pointer constants.  Null
yields the Null nodes in both lookups and undef yields `NullPtr` in the
value lookup, but the object lookup of undef is fatal; `IntToPtr` and
`PtrToInt` constant expressions yield `UniversalPtr` resp. `UniversalObj`;
`BitCast` recurses on the cast source in both lookups; a GEP constant
expression resolves structurally through its base (NodeFactory.cpp lines
106-128 and 169-177): a failing base propagates the failure, a null or
universal base is returned unchanged, an ordinary object base is offset by
the field number, and the value lookup returns the base at field 0 and
otherwise consults the `gepMap` memo, creating and recording a fresh value
node on a miss; a constant expression of any unhandled opcode is fatal
(`UnhandledConstant`) in both lookups. -/
theorem c10_amended_constant_resolution (fs : FactoryState) (c : LConst) (k : Nat) :
    getValueNodeForConstant fs LConst.nullC = (some NullPtrIndex, fs) ∧
    getValueNodeForConstant fs LConst.undefC = (some NullPtrIndex, fs) ∧
    getObjectNodeForConstant fs LConst.nullC = some NullObjectIndex ∧
    getObjectNodeForConstant fs LConst.undefC = none ∧
    getValueNodeForConstant fs LConst.inttoptrC = (some UniversalPtrIndex, fs) ∧
    getValueNodeForConstant fs LConst.ptrtointC = (some UniversalPtrIndex, fs) ∧
    getObjectNodeForConstant fs LConst.inttoptrC = some UniversalObjIndex ∧
    getObjectNodeForConstant fs LConst.ptrtointC = some UniversalObjIndex ∧
    getValueNodeForConstant fs (LConst.bitcastC c) = getValueNodeForConstant fs c ∧
    getObjectNodeForConstant fs (LConst.bitcastC c) = getObjectNodeForConstant fs c ∧
    (getObjectNodeForConstant fs c = none →
      getObjectNodeForConstant fs (LConst.gepC c k) = none) ∧
    (getObjectNodeForConstant fs c = some NullObjectIndex →
      getObjectNodeForConstant fs (LConst.gepC c k) = some NullObjectIndex) ∧
    (getObjectNodeForConstant fs c = some UniversalObjIndex →
      getObjectNodeForConstant fs (LConst.gepC c k) = some UniversalObjIndex) ∧
    (∀ b, getObjectNodeForConstant fs c = some b → b ≠ InvalidIndex →
      b ≠ NullObjectIndex → b ≠ UniversalObjIndex →
      getObjectNodeForConstant fs (LConst.gepC c k) = some (b + k)) ∧
    (∀ b fs2, getValueNodeForConstant fs c = (some b, fs2) → b ≠ InvalidIndex →
      getValueNodeForConstant fs (LConst.gepC c 0) = (some b, fs2)) ∧
    (∀ b fs2 g, getValueNodeForConstant fs c = (some b, fs2) → b ≠ InvalidIndex →
      b ≠ NullObjectIndex → b ≠ UniversalObjIndex → k ≠ 0 →
      assocLookup (b, k) fs2.gepMap = some g →
      getValueNodeForConstant fs (LConst.gepC c k) = (some g, fs2)) ∧
    (∀ b fs2, getValueNodeForConstant fs c = (some b, fs2) → b ≠ InvalidIndex →
      b ≠ NullObjectIndex → b ≠ UniversalObjIndex → k ≠ 0 →
      assocLookup (b, k) fs2.gepMap = none →
      getValueNodeForConstant fs (LConst.gepC c k) =
        (some fs2.numNodes,
         ⟨fs2.numNodes + 1, fs2.valueNodeMap, fs2.objNodeMap, fs2.returnMap,
          fs2.varargMap, fs2.gepMap ++ [((b, k), fs2.numNodes)]⟩)) ∧
    getValueNodeForConstant fs LConst.otherExprC = (none, fs) ∧
    getObjectNodeForConstant fs LConst.otherExprC = none := by
  refine ⟨rfl, rfl, rfl, rfl, rfl, rfl, rfl, rfl, ?_, ?_, ?_, ?_, ?_, ?_, ?_, ?_, ?_, rfl, rfl⟩
  · simp [getValueNodeForConstant]
  · simp [getObjectNodeForConstant]
  · intro hb
    simp only [getObjectNodeForConstant, hb]
  · intro hb
    simp [getObjectNodeForConstant, hb, NullObjectIndex, InvalidIndex]
  · intro hb
    simp [getObjectNodeForConstant, hb, UniversalObjIndex, InvalidIndex]
  · intro b hb hbi hbn hbu
    simp only [getObjectNodeForConstant, hb]
    rw [if_neg hbi, if_neg (fun h => h.elim hbn hbu)]
  · intro b fs2 hb hbi
    simp only [getValueNodeForConstant, hb]
    rw [if_neg hbi]
    by_cases hsent : b = NullObjectIndex ∨ b = UniversalObjIndex
    · rw [if_pos hsent]
    · rw [if_neg hsent, if_pos trivial]
  · intro b fs2 g hb hbi hbn hbu hk hmemo
    simp only [getValueNodeForConstant, hb]
    rw [if_neg hbi, if_neg (fun h => h.elim hbn hbu), if_neg hk, hmemo]
  · intro b fs2 hb hbi hbn hbu hk hmemo
    simp only [getValueNodeForConstant, hb]
    rw [if_neg hbi, if_neg (fun h => h.elim hbn hbu), if_neg hk, hmemo]
    rfl

/-- C9 counterexample: `getPointsToSet` returns `false` for a known
pointer: IR value 0 is registered (its value-node lookup does not yield
the invalid sentinel) but resolves to `UniversalPtr`, and the query
answers `false`. -/
theorem c9_known_pointer_counterexample :
    c9State.valueNode 0 ≠ InvalidIndex ∧ (getPointsToSet c9State 0 []).1 = false := by
  decide

/-- The output-filling fold of `getPointsToSet` (Andersen.cpp lines 40-48)
appends exactly the back-references of the non-null nodes that have one. -/
theorem getPointsToSet_fold_eq (f : Nat → Option Nat) (l : List Nat) (acc : List Nat) :
    l.foldl
      (fun acc v2 =>
        if v2 = NullObjectIndex then acc
        else
          match f v2 with
          | none => acc
          | some val => acc ++ [val])
      acc =
    acc ++ (l.filter (fun x => x ≠ NullObjectIndex && (f x).isSome)).filterMap f := by
  induction l generalizing acc with
  | nil => simp
  | cons x xs ih =>
    by_cases hx : x = NullObjectIndex
    · simp [hx, ih]
    · rcases hfx : f x with _ | val
      · simp [hx, hfx, ih]
      · simp [hx, hfx, ih]

/-- C9 amended: `getPointsToSet(v, out)` returns `false` exactly when `v`
is not a known pointer or resolves to the universal pointer (leaving the
output untouched); on `true` it fills the output with the IR
back-references of the object nodes in the points-to set of `v`'s
representative, skipping `NullObj` and nodes without a back-reference, and
leaves the output empty when the representative has no points-to entry. -/
theorem c9_amended_getPointsToSet (st : AndersenQueryState) (v : Nat) (out : List Nat) :
    ((getPointsToSet st v out).1 = false ↔
      st.valueNode v = InvalidIndex ∨ st.valueNode v = UniversalPtrIndex) ∧
    ((getPointsToSet st v out).1 = false → (getPointsToSet st v out).2 = out) ∧
    (∀ n, st.valueNode v = n → n ≠ InvalidIndex → n ≠ UniversalPtrIndex →
      (st.ptsGraph (getMergeTargetW st.mt st.numNodes n) = none →
        (getPointsToSet st v out).2 = []) ∧
      (∀ s, st.ptsGraph (getMergeTargetW st.mt st.numNodes n) = some s →
        (getPointsToSet st v out).2 =
          ((s.sort (· ≤ ·)).filter
            (fun x => x ≠ NullObjectIndex && (st.valueForNode x).isSome)).filterMap
            st.valueForNode)) := by
  by_cases hbad : st.valueNode v = InvalidIndex ∨ st.valueNode v = UniversalPtrIndex
  · refine ⟨by simp [getPointsToSet, hbad], by simp [getPointsToSet, hbad], ?_⟩
    intro n hn hn1 hn2
    rcases hbad with h | h <;> rw [hn] at h
    · exact absurd h hn1
    · exact absurd h hn2
  · rcases hpg : st.ptsGraph (getMergeTargetW st.mt st.numNodes (st.valueNode v)) with _ | s0
    · refine ⟨by simp [getPointsToSet, hbad, hpg], by simp [getPointsToSet, hbad, hpg], ?_⟩
      intro n hn hn1 hn2
      subst hn
      refine ⟨fun _ => by simp [getPointsToSet, hbad, hpg], fun s hs => ?_⟩
      rw [hpg] at hs
      exact absurd hs (by simp)
    · refine ⟨by simp [getPointsToSet, hbad, hpg], by simp [getPointsToSet, hbad, hpg], ?_⟩
      intro n hn hn1 hn2
      subst hn
      refine ⟨fun hnone => absurd (hpg.symm.trans hnone) (by simp), fun s hs => ?_⟩
      rw [hpg] at hs
      injection hs with hs
      subst hs
      simp only [getPointsToSet, hbad, if_false, hpg]
      exact getPointsToSet_fold_eq st.valueForNode (s0.sort (· ≤ ·)) []

/-- The intersection loop of `andersenAlias` (AndersenAA.cpp lines 36-42)
finds a hit exactly when the two sets share an element other than the null
object; this is symmetric in the two sets. -/
theorem andersenAlias_intersect_symm (s1 s2 : AndersPtsSet) :
    ((s1.sort (· ≤ ·)).any fun idx => idx ≠ NullObjectIndex && s2.has idx) =
    ((s2.sort (· ≤ ·)).any fun idx => idx ≠ NullObjectIndex && s1.has idx) := by
  have h : ∀ t1 t2 : AndersPtsSet,
      (((t1.sort (· ≤ ·)).any fun idx => idx ≠ NullObjectIndex && t2.has idx) = true) ↔
        ∃ x, x ∈ t1 ∧ x ∈ t2 ∧ x ≠ NullObjectIndex := by
    intro t1 t2
    simp only [List.any_eq_true, Finset.mem_sort, AndersPtsSet.has, Bool.and_eq_true,
      decide_eq_true_eq, ne_eq]
    constructor
    · rintro ⟨x, hx1, hxn, hx2⟩
      exact ⟨x, hx1, hx2, hxn⟩
    · rintro ⟨x, hx1, hx2, hxn⟩
      exact ⟨x, hx1, hxn, hx2⟩
  rcases h12 : (s1.sort (· ≤ ·)).any fun idx => idx ≠ NullObjectIndex && s2.has idx with _ | _ <;>
    rcases h21 : (s2.sort (· ≤ ·)).any fun idx => idx ≠ NullObjectIndex && s1.has idx with _ | _
  · rfl
  · obtain ⟨x, hx2, hx1, hxn⟩ := (h s2 s1).mp h21
    exact absurd ((h s1 s2).mpr ⟨x, hx1, hx2, hxn⟩)
      (fun hc => Bool.false_ne_true (h12.symm.trans hc))
  · obtain ⟨x, hx1, hx2, hxn⟩ := (h s1 s2).mp h12
    exact absurd ((h s2 s1).mpr ⟨x, hx2, hx1, hxn⟩)
      (fun hc => Bool.false_ne_true (h21.symm.trans hc))
  · rfl

/-- C7: for known pointers the alias query is symmetric, and a query of a
value against itself answers `MustAlias`. -/
theorem c7_alias_symmetric_and_reflexive (st : AAState) (a b : Nat)
    (ha : st.valueNode a ≠ InvalidIndex) (hb : st.valueNode b ≠ InvalidIndex) :
    andersenAlias st a b = andersenAlias st b a ∧
    andersenAlias st a a = AliasResult.MustAlias := by
  constructor
  · unfold andersenAlias
    rcases heq : decide (getMergeTargetW st.mt st.numNodes (st.valueNode a) =
        getMergeTargetW st.mt st.numNodes (st.valueNode b)) with _ | _
    · have hne : getMergeTargetW st.mt st.numNodes (st.valueNode a) ≠
          getMergeTargetW st.mt st.numNodes (st.valueNode b) := of_decide_eq_false heq
      rw [if_neg hne, if_neg (Ne.symm hne)]
      rcases h1 : st.ptsGraph (getMergeTargetW st.mt st.numNodes (st.valueNode a)) with _ | s1 <;>
        rcases h2 : st.ptsGraph (getMergeTargetW st.mt st.numNodes (st.valueNode b)) with _ | s2 <;>
        simp only []
      by_cases hnull : isSetContainingOnly s1 NullObjectIndex ∨ isSetContainingOnly s2 NullObjectIndex
      · rw [if_pos hnull, if_pos (Or.symm hnull)]
      · rw [if_neg hnull, if_neg (fun h => hnull (Or.symm h))]
        by_cases hsing : s1.card = 1 ∧ s2.card = 1 ∧ s1.min = s2.min
        · have hsing2 : s2.card = 1 ∧ s1.card = 1 ∧ s2.min = s1.min :=
            ⟨hsing.2.1, hsing.1, hsing.2.2.symm⟩
          rw [if_pos hsing, if_pos hsing2]
        · have hsing2 : ¬(s2.card = 1 ∧ s1.card = 1 ∧ s2.min = s1.min) :=
            fun h2 => hsing ⟨h2.2.1, h2.1, h2.2.2.symm⟩
          rw [if_neg hsing, if_neg hsing2]
          rw [andersenAlias_intersect_symm s1 s2]
    · have heq2 : getMergeTargetW st.mt st.numNodes (st.valueNode a) =
          getMergeTargetW st.mt st.numNodes (st.valueNode b) := of_decide_eq_true heq
      rw [if_pos heq2, if_pos heq2.symm]
  · simp [andersenAlias]

/-- Witness for C7 at the concrete state `c7State` and values 0 and 1. -/
theorem c7_alias_symmetric_and_reflexive_witness :
    andersenAlias c7State 0 1 = andersenAlias c7State 1 0 ∧
    andersenAlias c7State 0 0 = AliasResult.MustAlias :=
  c7_alias_symmetric_and_reflexive c7State 0 1 (by decide) (by decide)

/-- One solver step never shrinks the points-to set associated with a
node: the set of the node's representative before the step is contained in
the set of its (possibly new) representative after the step. -/
theorem solverStep_pts_mono {s t : AState} (h : SolverStep s t) (n : Nat) :
    s.pts (s.rep n) ⊆ t.pts (t.rep n) := by
  cases h with
  | propagate node tgt hn ht hrn hrt hne hedge hgrow =>
    simp only [Function.update_apply]
    by_cases hc : s.rep n = tgt
    · rw [if_pos hc, hc]
      exact Finset.subset_union_left
    · rw [if_neg hc]
  | addCopyEdge a b ha hb hra hrb hnew => exact Finset.Subset.refl _
  | replaceCopy a old ha hold hstale => exact Finset.Subset.refl _
  | replaceLoad a old ha hold hstale => exact Finset.Subset.refl _
  | replaceStore a old ha hold hstale => exact Finset.Subset.refl _
  | merge dst src enq hd hs2 hrd hrs hne henq =>
    by_cases hc : s.rep n = src
    · have hrep2 : (collapseNodesA dst src enq s).rep n = dst := by
        simp [collapseNodesA, hc]
      have hpts2 : (collapseNodesA dst src enq s).pts dst = s.pts dst ∪ s.pts src := by
        simp [collapseNodesA, Function.update_apply, hne]
      rw [hrep2, hpts2, hc]
      exact Finset.subset_union_right
    · have hrep2 : (collapseNodesA dst src enq s).rep n = s.rep n := by
        simp [collapseNodesA, hc]
      rw [hrep2]
      by_cases hc2 : s.rep n = dst
      · have hpts2 : (collapseNodesA dst src enq s).pts (s.rep n) = s.pts dst ∪ s.pts src := by
          simp [collapseNodesA, Function.update_apply, hc, hc2, hne]
        rw [hpts2, hc2]
        exact Finset.subset_union_left
      · have hpts2 : (collapseNodesA dst src enq s).pts (s.rep n) = s.pts (s.rep n) := by
          simp [collapseNodesA, Function.update_apply, hc, hc2]
        rw [hpts2]
  | lcdCandidate node tgt hn ht hedge heq hnew => exact Finset.Subset.refl _
  | lcdClear hne => exact Finset.Subset.refl _
  | retire n2 hn => exact Finset.Subset.refl _

/-- C4: along any run of the solving loop, the points-to set of a node's
representative grows monotonically: at any earlier time it is a subset of
its value at any later time. -/
theorem c4_pts_monotonic (s s2 : AState) (h : Relation.ReflTransGen SolverStep s s2)
    (n : Nat) : s.pts (s.rep n) ⊆ s2.pts (s2.rep n) := by
  induction h with
  | refl => exact Finset.Subset.refl _
  | tail hstep hlast ih => exact ih.trans (solverStep_pts_mono hlast n)

/-- Witness for C4: a single propagation step from `c4State`. -/
theorem c4_pts_monotonic_witness :
    c4State.pts (c4State.rep 0) ⊆ c4StateAfter.pts (c4StateAfter.rep 0) :=
  c4_pts_monotonic c4State c4StateAfter
    (Relation.ReflTransGen.single
      (SolverStep.propagate c4State 0 1 (by decide) (by decide) rfl rfl (by decide)
        (by decide) (by decide)))
    0

/-- A one-step merge chain resolves in one step of the walk. -/
theorem getMergeTargetW_one (mt : Nat → Nat) (fuel i c : Nat)
    (h1 : mt i = c) (hc : mt c = c) (hfuel : 1 ≤ fuel) :
    getMergeTargetW mt fuel i = c := by
  rcases eq_or_ne i c with rfl | hne
  · exact getMergeTargetW_fix mt fuel i h1
  · obtain ⟨k, rfl⟩ : ∃ k, fuel = k + 1 := ⟨fuel - 1, by omega⟩
    simp only [getMergeTargetW, h1]
    rw [if_neg (fun h => hne h.symm)]
    exact getMergeTargetW_fix mt k c hc

/-- One iteration of the HVN merge loop preserves its invariant. -/
theorem hvnInv_step (numNodes : Nat) (pe : Nat → Nat) (k : Nat)
    (acc : (Nat → Nat) × (Nat → Option Nat)) (h : HvnInv pe k acc.1 acc.2) :
    HvnInv pe (k + 1) (hvnRewriteMergeStep numNodes pe acc k).1
      (hvnRewriteMergeStep numNodes pe acc k).2 := by
  obtain ⟨mt, rev⟩ := acc
  obtain ⟨ha, hb, hc⟩ := h
  replace ha : ∀ x, mt x ≠ x → x < k ∧ mt x < x ∧ mt (mt x) = mt x := ha
  replace hb : ∀ l c, rev l = some c → c < k ∧ mt c = c ∧ pe c = l := hb
  replace hc : ∀ i, i < k → pe i ≠ 0 →
      ∃ c, rev (pe i) = some c ∧ (mt i = c ∨ i = c) := hc
  have hmtk : mt k = k := by
    by_contra hmk
    exact absurd (ha k hmk).1 (lt_irrefl k)
  have hwalk : getMergeTargetW mt numNodes k = k := getMergeTargetW_fix mt numNodes k hmtk
  simp only [hvnRewriteMergeStep, hwalk, ne_eq, not_true_eq_false, if_false]
  rcases hrev : rev (pe k) with _ | j
  · dsimp only
    refine ⟨fun x hx => ⟨(ha x hx).1.trans (Nat.lt_succ_self k), (ha x hx).2⟩, ?_, ?_⟩
    · intro l c hlc
      by_cases hl : l = pe k
      · rw [hl, Function.update_same] at hlc
        injection hlc with hlc
        subst hlc
        exact ⟨Nat.lt_succ_self _, hmtk, by rw [hl]⟩
      · rw [Function.update_noteq hl] at hlc
        exact ⟨(hb l c hlc).1.trans (Nat.lt_succ_self k), (hb l c hlc).2⟩
    · intro i hik hpe
      rcases Nat.lt_succ_iff_lt_or_eq.mp hik with hik2 | rfl
      · obtain ⟨c, hcrev, hdis⟩ := hc i hik2 hpe
        refine ⟨c, ?_, hdis⟩
        have hl : pe i ≠ pe k := by
          intro heq
          rw [heq, hrev] at hcrev
          exact Option.noConfusion hcrev
        rw [Function.update_noteq hl]
        exact hcrev
      · exact ⟨i, by rw [Function.update_same], Or.inr rfl⟩
  · dsimp only
    by_cases hz : pe k ≠ 0
    · rw [if_pos hz]
      dsimp only
      obtain ⟨hjk, hmj, hpj⟩ := hb (pe k) j hrev
      have hjne : j ≠ k := Nat.ne_of_lt hjk
      simp only [mergeNode]
      refine ⟨?_, ?_, ?_⟩
      · intro x hx
        by_cases hxk : x = k
        · subst hxk
          have h1 : Function.update mt x j x = j := Function.update_same x j mt
          refine ⟨Nat.lt_succ_self x, ?_, ?_⟩
          · rw [h1]
            exact hjk
          · rw [h1, Function.update_noteq hjne]
            exact hmj
        · rw [Function.update_noteq hxk] at hx
          obtain ⟨hxlt, hmx, hmm⟩ := ha x hx
          have hmxk : mt x ≠ k := Nat.ne_of_lt (hmx.trans hxlt)
          refine ⟨hxlt.trans (Nat.lt_succ_self k), ?_, ?_⟩
          · rw [Function.update_noteq hxk]
            exact hmx
          · rw [Function.update_noteq hxk, Function.update_noteq hmxk]
            exact hmm
      · intro l c hlc
        obtain ⟨hck, hmc, hpc⟩ := hb l c hlc
        have hck2 : c ≠ k := Nat.ne_of_lt hck
        exact ⟨hck.trans (Nat.lt_succ_self k),
          by rw [Function.update_noteq hck2]; exact hmc, hpc⟩
      · intro i hik hpe
        rcases Nat.lt_succ_iff_lt_or_eq.mp hik with hik2 | rfl
        · obtain ⟨c, hcrev, hdis⟩ := hc i hik2 hpe
          have hine : i ≠ k := Nat.ne_of_lt hik2
          refine ⟨c, hcrev, ?_⟩
          rw [Function.update_noteq hine]
          exact hdis
        · exact ⟨j, hrev, Or.inl (by rw [Function.update_same])⟩
    · rw [if_neg hz]
      dsimp only
      refine ⟨fun x hx => ⟨(ha x hx).1.trans (Nat.lt_succ_self k), (ha x hx).2⟩,
        fun l c hlc => ⟨(hb l c hlc).1.trans (Nat.lt_succ_self k), (hb l c hlc).2⟩, ?_⟩
      intro i hik hpe
      rcases Nat.lt_succ_iff_lt_or_eq.mp hik with hik2 | rfl
      · exact hc i hik2 hpe
      · exact absurd (not_not.mp hz) hpe

/-- The HVN merge loop establishes its invariant from the identity map. -/
theorem hvnInv_fold (numNodes : Nat) (pe : Nat → Nat) (k : Nat) :
    HvnInv pe k ((List.range k).foldl (hvnRewriteMergeStep numNodes pe) (id, fun _ => none)).1
      ((List.range k).foldl (hvnRewriteMergeStep numNodes pe) (id, fun _ => none)).2 := by
  induction k with
  | zero =>
    refine ⟨fun x hx => absurd rfl hx, fun l c hlc => Option.noConfusion hlc, fun i hi => absurd hi (Nat.not_lt_zero i)⟩
  | succ k ih =>
    rw [List.range_succ, List.foldl_append]
    exact hvnInv_step numNodes pe k _ ih

/-- After the HVN merge loop (started from the identity merge-target map),
any two nodes with the same non-zero pointer-equivalence label have the
same merge target. -/
theorem hvnRewriteMerge_same_label (numNodes : Nat) (pe : Nat → Nat)
    (i j : Nat) (hi : i < numNodes) (hj : j < numNodes)
    (hlab : pe i = pe j) (hnz : pe i ≠ 0) :
    getMergeTargetW (hvnRewriteMerge numNodes pe id).1 numNodes i =
    getMergeTargetW (hvnRewriteMerge numNodes pe id).1 numNodes j := by
  obtain ⟨ha, hb, hc⟩ := hvnInv_fold numNodes pe numNodes
  have hfuel : 1 ≤ numNodes := Nat.one_le_iff_ne_zero.mpr (by omega)
  have walkTo : ∀ m, m < numNodes → pe m ≠ 0 →
      ∀ c, (hvnRewriteMerge numNodes pe id).2 (pe m) = some c →
      getMergeTargetW (hvnRewriteMerge numNodes pe id).1 numNodes m = c := by
    intro m hm hpm c hcm
    obtain ⟨c2, hc2rev, hdis⟩ := hc m hm hpm
    rw [hvnRewriteMerge] at hcm
    rw [hcm] at hc2rev
    injection hc2rev with hc2rev
    subst hc2rev
    obtain ⟨-, hmc, -⟩ := hb (pe m) c hcm
    rcases hdis with hdis | rfl
    · exact getMergeTargetW_one _ numNodes m c hdis hmc hfuel
    · exact getMergeTargetW_fix _ numNodes m hmc
  rcases hrev : (hvnRewriteMerge numNodes pe id).2 (pe i) with _ | c
  · obtain ⟨c2, hc2rev, -⟩ := hc i hi hnz
    rw [hvnRewriteMerge] at hrev
    rw [hrev] at hc2rev
    exact Option.noConfusion hc2rev
  · rw [walkTo i hi hnz c hrev, walkTo j hj (hlab ▸ hnz) c (hlab ▸ hrev)]

/-- A solver step preserves representative equality of two nodes. -/
theorem solverStep_rep_eq {s t : AState} (h : SolverStep s t) (i j : Nat)
    (hij : s.rep i = s.rep j) : t.rep i = t.rep j := by
  cases h with
  | propagate node tgt hn ht hrn hrt hne hedge hgrow => exact hij
  | addCopyEdge a b ha hb hra hrb hnew => exact hij
  | replaceCopy a old ha hold hstale => exact hij
  | replaceLoad a old ha hold hstale => exact hij
  | replaceStore a old ha hold hstale => exact hij
  | merge dst src enq hd hs2 hrd hrs hne henq => simp [collapseNodesA, hij]
  | lcdCandidate node tgt hn ht hedge heq hnew => exact hij
  | lcdClear hne => exact hij
  | retire n2 hn => exact hij

/-- C8: two nodes that HVN assigned the same non-zero pointer-equivalence
label are merged by the constraint rewrite, and since solving never splits
merged nodes, their final points-to sets (the points-to graph entry of
their representative) are identical after any solver run. -/
theorem c8_hvn_equal_labels_equal_pts (numNodes : Nat) (peLabel : Nat → Nat)
    (i j : Nat) (hi : i < numNodes) (hj : j < numNodes)
    (hlab : peLabel i = peLabel j) (hnz : peLabel i ≠ 0)
    (s0 send : AState)
    (hrep : ∀ n, s0.rep n = getMergeTargetW (hvnRewriteMerge numNodes peLabel id).1 numNodes n)
    (hrun : Relation.ReflTransGen SolverStep s0 send) :
    send.pts (send.rep i) = send.pts (send.rep j) := by
  have h0 : s0.rep i = s0.rep j := by
    rw [hrep i, hrep j]
    exact hvnRewriteMerge_same_label numNodes peLabel i j hi hj hlab hnz
  have hend : send.rep i = send.rep j := by
    clear hrep
    induction hrun with
    | refl => exact h0
    | tail hsteps hlast ih => exact solverStep_rep_eq hlast i j ih
  rw [hend]

/-- Witness for C8: labels `c8Pe` over five nodes, nodes 3 and 4, and the
empty solver run from `c8State`. -/
theorem c8_hvn_equal_labels_equal_pts_witness :
    c8State.pts (c8State.rep 3) = c8State.pts (c8State.rep 4) :=
  c8_hvn_equal_labels_equal_pts 5 c8Pe 3 4 (by decide) (by decide) (by decide) (by decide)
    c8State c8State (fun n => rfl) Relation.ReflTransGen.refl

/-- Every solver step preserves well-formedness of the abstract state. -/
theorem solverStep_wf {s t : AState} (h : SolverStep s t) (hwf : AStateWF s) : AStateWF t := by
  obtain ⟨hrep, hsets⟩ := hwf
  cases h with
  | propagate node tgt hn ht hrn hrt hne hedge hgrow =>
    unfold AStateWF
    dsimp only
    refine ⟨hrep, fun n hn2 => ?_⟩
    obtain ⟨hp, hcp, hl, hs2⟩ := hsets n hn2
    refine ⟨?_, hcp, hl, hs2⟩
    rw [Function.update_apply]
    by_cases hntgt : n = tgt
    · rw [if_pos hntgt]
      exact Finset.union_subset (hntgt ▸ hp) (hsets node hn).1
    · rw [if_neg hntgt]
      exact hp
  | addCopyEdge a b ha hb hra hrb hnew =>
    unfold AStateWF
    dsimp only
    refine ⟨hrep, fun n hn2 => ?_⟩
    obtain ⟨hp, hcp, hl, hs2⟩ := hsets n hn2
    refine ⟨hp, ?_, hl, hs2⟩
    rw [Function.update_apply]
    by_cases hna : n = a
    · rw [if_pos hna]
      exact Finset.insert_subset (Finset.mem_range.mpr hb) (hna ▸ hcp)
    · rw [if_neg hna]
      exact hcp
  | replaceCopy a old ha hold hstale =>
    unfold AStateWF
    dsimp only
    refine ⟨hrep, fun n hn2 => ?_⟩
    obtain ⟨hp, hcp, hl, hs2⟩ := hsets n hn2
    refine ⟨hp, ?_, hl, hs2⟩
    rw [Function.update_apply]
    by_cases hna : n = a
    · rw [if_pos hna]
      subst hna
      have holdN : old < s.numNodes := Finset.mem_range.mp (hcp hold)
      exact Finset.insert_subset (Finset.mem_range.mpr (hrep old holdN).1)
        ((Finset.erase_subset old (s.copyE n)).trans hcp)
    · rw [if_neg hna]
      exact hcp
  | replaceLoad a old ha hold hstale =>
    unfold AStateWF
    dsimp only
    refine ⟨hrep, fun n hn2 => ?_⟩
    obtain ⟨hp, hcp, hl, hs2⟩ := hsets n hn2
    refine ⟨hp, hcp, ?_, hs2⟩
    rw [Function.update_apply]
    by_cases hna : n = a
    · rw [if_pos hna]
      subst hna
      have holdN : old < s.numNodes := Finset.mem_range.mp (hl hold)
      exact Finset.insert_subset (Finset.mem_range.mpr (hrep old holdN).1)
        ((Finset.erase_subset old (s.loadE n)).trans hl)
    · rw [if_neg hna]
      exact hl
  | replaceStore a old ha hold hstale =>
    unfold AStateWF
    dsimp only
    refine ⟨hrep, fun n hn2 => ?_⟩
    obtain ⟨hp, hcp, hl, hs2⟩ := hsets n hn2
    refine ⟨hp, hcp, hl, ?_⟩
    rw [Function.update_apply]
    by_cases hna : n = a
    · rw [if_pos hna]
      subst hna
      have holdN : old < s.numNodes := Finset.mem_range.mp (hs2 hold)
      exact Finset.insert_subset (Finset.mem_range.mpr (hrep old holdN).1)
        ((Finset.erase_subset old (s.storeE n)).trans hs2)
    · rw [if_neg hna]
      exact hs2
  | merge dst src enq hd hs2 hrd hrs hne henq =>
    unfold AStateWF collapseNodesA
    dsimp only
    constructor
    · intro n hn2
      constructor
      · show (if s.rep n = src then dst else s.rep n) < s.numNodes
        by_cases hc : s.rep n = src
        · rw [if_pos hc]
          exact hd
        · rw [if_neg hc]
          exact (hrep n hn2).1
      · show (if s.rep (if s.rep n = src then dst else s.rep n) = src then dst
            else s.rep (if s.rep n = src then dst else s.rep n)) =
            (if s.rep n = src then dst else s.rep n)
        by_cases hc : s.rep n = src
        · rw [if_pos hc, hrd, if_neg hne]
        · rw [if_neg hc, (hrep n hn2).2, if_neg hc]
    · intro n hn2
      have hsub : ∀ f : Nat → Finset Nat,
          (∀ m, m < s.numNodes → f m ⊆ Finset.range s.numNodes) →
          Function.update (Function.update f dst (f dst ∪ f src)) src ∅ n ⊆
            Finset.range s.numNodes := by
        intro f hf
        rw [Function.update_apply]
        by_cases hns : n = src
        · rw [if_pos hns]
          exact Finset.empty_subset _
        · rw [if_neg hns, Function.update_apply]
          by_cases hnd : n = dst
          · rw [if_pos hnd]
            exact Finset.union_subset (hf dst hd) (hf src hs2)
          · rw [if_neg hnd]
            exact hf n hn2
      exact ⟨hsub s.pts (fun m hm => (hsets m hm).1),
        hsub s.copyE (fun m hm => (hsets m hm).2.1),
        hsub s.loadE (fun m hm => (hsets m hm).2.2.1),
        hsub s.storeE (fun m hm => (hsets m hm).2.2.2)⟩
  | lcdCandidate node tgt hn ht hedge heq hnew => exact ⟨hrep, hsets⟩
  | lcdClear hne => exact ⟨hrep, hsets⟩
  | retire n2 hn => exact ⟨hrep, hsets⟩

/-- Lexicographic decrease at the first component. -/
theorem measureLt_1 {t s : AState} (h1 : repCount t < repCount s) :
    MeasureLt (solverMeasure t) (solverMeasure s) :=
  Prod.Lex.left _ _ h1

/-- Lexicographic decrease at the second component. -/
theorem measureLt_2 {t s : AState} (he1 : repCount t = repCount s)
    (h2 : staleCount t < staleCount s) :
    MeasureLt (solverMeasure t) (solverMeasure s) := by
  unfold MeasureLt solverMeasure
  rw [he1]
  exact Prod.Lex.right _ (Prod.Lex.left _ _ h2)

/-- Lexicographic decrease at the third component. -/
theorem measureLt_3 {t s : AState} (he1 : repCount t = repCount s)
    (he2 : staleCount t = staleCount s) (h3 : capCount t < capCount s) :
    MeasureLt (solverMeasure t) (solverMeasure s) := by
  unfold MeasureLt solverMeasure
  rw [he1, he2]
  exact Prod.Lex.right _ (Prod.Lex.right _ (Prod.Lex.left _ _ h3))

/-- Lexicographic decrease at the fourth component. -/
theorem measureLt_4 {t s : AState} (he1 : repCount t = repCount s)
    (he2 : staleCount t = staleCount s) (he3 : capCount t = capCount s)
    (h4 : checkedCap t < checkedCap s) :
    MeasureLt (solverMeasure t) (solverMeasure s) := by
  unfold MeasureLt solverMeasure
  rw [he1, he2, he3]
  exact Prod.Lex.right _ (Prod.Lex.right _ (Prod.Lex.right _ (Prod.Lex.left _ _ h4)))

/-- Lexicographic decrease at the fifth component. -/
theorem measureLt_5 {t s : AState} (he1 : repCount t = repCount s)
    (he2 : staleCount t = staleCount s) (he3 : capCount t = capCount s)
    (he4 : checkedCap t = checkedCap s) (h5 : candWlCount t < candWlCount s) :
    MeasureLt (solverMeasure t) (solverMeasure s) := by
  unfold MeasureLt solverMeasure
  rw [he1, he2, he3, he4]
  exact Prod.Lex.right _ (Prod.Lex.right _ (Prod.Lex.right _ (Prod.Lex.right _ h5)))

/-- A sum over a range strictly decreases when one summand strictly
decreases and all others are unchanged. -/
theorem sum_lt_of_point (N : Nat) (f g : Nat → Nat) (a : Nat) (ha : a < N)
    (hlt : g a < f a) (heq : ∀ x, x ≠ a → g x = f x) :
    ∑ x ∈ Finset.range N, g x < ∑ x ∈ Finset.range N, f x := by
  refine Finset.sum_lt_sum (fun i _ => ?_) ⟨a, Finset.mem_range.mpr ha, hlt⟩
  rcases eq_or_ne i a with rfl | h
  · exact le_of_lt hlt
  · rw [heq i h]

/-- A sum over a range is unchanged when every summand is unchanged. -/
theorem sum_eq_of_pointwise (N : Nat) (f g : Nat → Nat) (heq : ∀ x, g x = f x) :
    ∑ x ∈ Finset.range N, g x = ∑ x ∈ Finset.range N, f x :=
  Finset.sum_congr rfl (fun x _ => heq x)

/-- Every solver step strictly decreases the termination measure (in the
lexicographic order): merges decrease the representative count, endpoint
rewrites decrease the stale-endpoint count, propagations and edge
insertions decrease the remaining capacity, recording a cycle candidate
decreases the unchecked-edge capacity, and clearing the candidate set or
dequeuing decreases the candidate-plus-worklist count. -/
theorem solverStep_measure_lt {s t : AState} (h : SolverStep s t) (hwf : AStateWF s) :
    MeasureLt (solverMeasure t) (solverMeasure s) := by
  obtain ⟨hrep, hsets⟩ := hwf
  cases h with
  | propagate node tgt hn ht hrn hrt hne hedge hgrow =>
    refine measureLt_3 rfl rfl ?_
    unfold capCount
    dsimp only
    refine sum_lt_of_point _ _ _ tgt ht ?_ (fun x hx => by rw [Function.update_noteq hx])
    rw [Function.update_same]
    obtain ⟨x, hxn, hxt⟩ := Finset.not_subset.mp hgrow
    have hxR : x ∈ Finset.range s.numNodes := (hsets node hn).1 hxn
    have hss : Finset.range s.numNodes \ (s.pts tgt ∪ s.pts node) ⊂
        Finset.range s.numNodes \ s.pts tgt := by
      refine (Finset.ssubset_iff_of_subset
        (Finset.sdiff_subset_sdiff (Finset.Subset.refl _) Finset.subset_union_left)).mpr ?_
      exact ⟨x, Finset.mem_sdiff.mpr ⟨hxR, hxt⟩,
        fun hmem => (Finset.mem_sdiff.mp hmem).2 (Finset.mem_union_right _ hxn)⟩
    have hc := Finset.card_lt_card hss
    omega
  | addCopyEdge a b ha hb hra hrb hnew =>
    refine measureLt_3 rfl ?_ ?_
    · unfold staleCount
      dsimp only
      refine sum_eq_of_pointwise _ _ _ (fun x => ?_)
      by_cases hx : x = a
      · subst hx
        rw [Function.update_same, Finset.filter_insert, if_neg (by simp [hrb])]
      · rw [Function.update_noteq hx]
    · unfold capCount
      dsimp only
      refine sum_lt_of_point _ _ _ a ha ?_ (fun x hx => by rw [Function.update_noteq hx])
      rw [Function.update_same]
      have hss : Finset.range s.numNodes \ insert b (s.copyE a) ⊂
          Finset.range s.numNodes \ s.copyE a := by
        refine (Finset.ssubset_iff_of_subset
          (Finset.sdiff_subset_sdiff (Finset.Subset.refl _) (Finset.subset_insert _ _))).mpr ?_
        exact ⟨b, Finset.mem_sdiff.mpr ⟨Finset.mem_range.mpr hb, hnew⟩,
          fun hmem => (Finset.mem_sdiff.mp hmem).2 (Finset.mem_insert_self b _)⟩
      have hc := Finset.card_lt_card hss
      omega
  | replaceCopy a old ha hold hstale =>
    refine measureLt_2 rfl ?_
    unfold staleCount
    dsimp only
    refine sum_lt_of_point _ _ _ a ha ?_ (fun x hx => by rw [Function.update_noteq hx])
    rw [Function.update_same]
    have holdN : old < s.numNodes := Finset.mem_range.mp ((hsets a ha).2.1 hold)
    have hmemf : old ∈ Finset.filter (fun e => s.rep e ≠ e) (s.copyE a) :=
      Finset.mem_filter.mpr ⟨hold, hstale⟩
    rw [Finset.filter_insert, if_neg (by simp [(hrep old holdN).2]), Finset.filter_erase,
      Finset.card_erase_of_mem hmemf]
    have hpos := Finset.card_pos.mpr ⟨old, hmemf⟩
    omega
  | replaceLoad a old ha hold hstale =>
    refine measureLt_2 rfl ?_
    unfold staleCount
    dsimp only
    refine sum_lt_of_point _ _ _ a ha ?_ (fun x hx => by rw [Function.update_noteq hx])
    rw [Function.update_same]
    have holdN : old < s.numNodes := Finset.mem_range.mp ((hsets a ha).2.2.1 hold)
    have hmemf : old ∈ Finset.filter (fun e => s.rep e ≠ e) (s.loadE a) :=
      Finset.mem_filter.mpr ⟨hold, hstale⟩
    rw [Finset.filter_insert, if_neg (by simp [(hrep old holdN).2]), Finset.filter_erase,
      Finset.card_erase_of_mem hmemf]
    have hpos := Finset.card_pos.mpr ⟨old, hmemf⟩
    omega
  | replaceStore a old ha hold hstale =>
    refine measureLt_2 rfl ?_
    unfold staleCount
    dsimp only
    refine sum_lt_of_point _ _ _ a ha ?_ (fun x hx => by rw [Function.update_noteq hx])
    rw [Function.update_same]
    have holdN : old < s.numNodes := Finset.mem_range.mp ((hsets a ha).2.2.2 hold)
    have hmemf : old ∈ Finset.filter (fun e => s.rep e ≠ e) (s.storeE a) :=
      Finset.mem_filter.mpr ⟨hold, hstale⟩
    rw [Finset.filter_insert, if_neg (by simp [(hrep old holdN).2]), Finset.filter_erase,
      Finset.card_erase_of_mem hmemf]
    have hpos := Finset.card_pos.mpr ⟨old, hmemf⟩
    omega
  | merge dst src enq hd hs2 hrd hrs hne henq =>
    refine measureLt_1 ?_
    show ((Finset.range s.numNodes).filter
        (fun n => (if s.rep n = src then dst else s.rep n) = n)).card <
      ((Finset.range s.numNodes).filter (fun n => s.rep n = n)).card
    have hfilter : (Finset.range s.numNodes).filter
        (fun n => (if s.rep n = src then dst else s.rep n) = n) =
        ((Finset.range s.numNodes).filter (fun n => s.rep n = n)).erase src := by
      ext n
      simp only [Finset.mem_filter, Finset.mem_erase, Finset.mem_range]
      constructor
      · rintro ⟨hnN, hcond⟩
        by_cases hc : s.rep n = src
        · rw [if_pos hc] at hcond
          subst hcond
          exact absurd (hrd.symm.trans hc) hne
        · rw [if_neg hc] at hcond
          exact ⟨fun hns => hc (hns ▸ hcond), hnN, hcond⟩
      · rintro ⟨hns, hnN, hcond⟩
        have hc : s.rep n ≠ src := by
          rw [hcond]
          exact hns
        rw [if_neg hc]
        exact ⟨hnN, hcond⟩
    rw [hfilter]
    have hmem : src ∈ (Finset.range s.numNodes).filter (fun n => s.rep n = n) :=
      Finset.mem_filter.mpr ⟨Finset.mem_range.mpr hs2, hrs⟩
    rw [Finset.card_erase_of_mem hmem]
    have hpos := Finset.card_pos.mpr ⟨src, hmem⟩
    omega
  | lcdCandidate node tgt hn ht hedge heq hnew =>
    refine measureLt_4 rfl rfl rfl ?_
    show ((Finset.range s.numNodes ×ˢ Finset.range s.numNodes) \
        insert (node, tgt) s.checked).card <
      ((Finset.range s.numNodes ×ˢ Finset.range s.numNodes) \ s.checked).card
    rw [Finset.sdiff_insert]
    have hmem : (node, tgt) ∈
        (Finset.range s.numNodes ×ˢ Finset.range s.numNodes) \ s.checked :=
      Finset.mem_sdiff.mpr
        ⟨Finset.mem_product.mpr ⟨Finset.mem_range.mpr hn, Finset.mem_range.mpr ht⟩, hnew⟩
    rw [Finset.card_erase_of_mem hmem]
    have hpos := Finset.card_pos.mpr ⟨(node, tgt), hmem⟩
    omega
  | lcdClear hne =>
    refine measureLt_5 rfl rfl rfl rfl ?_
    show (∅ : Finset Nat).card + s.wl.card < s.cand.card + s.wl.card
    have hpos := Finset.card_pos.mpr (Finset.nonempty_iff_ne_empty.mpr hne)
    simp only [Finset.card_empty]
    omega
  | retire n2 hn =>
    refine measureLt_5 rfl rfl rfl rfl ?_
    show s.cand.card + (s.wl.erase n2).card < s.cand.card + s.wl.card
    rw [Finset.card_erase_of_mem hn]
    have hpos := Finset.card_pos.mpr ⟨n2, hn⟩
    omega

/-- The lexicographic measure order is well-founded. -/
theorem measureLt_wf : WellFounded MeasureLt := by
  unfold MeasureLt
  exact Nat.lt_wfRel.wf.prod_lex (Nat.lt_wfRel.wf.prod_lex
    (Nat.lt_wfRel.wf.prod_lex (Nat.lt_wfRel.wf.prod_lex Nat.lt_wfRel.wf)))

/-- C6: the solving loop terminates: from any well-formed state, every
sequence of solver steps (propagations, edge insertions and rewrites, LCD
bookkeeping, LCD/HCD merges, dequeues) is finite — the reversed step
relation is accessible, so no infinite run exists and the worklists are
eventually exhausted. -/
theorem c6_solver_terminates (s : AState) (hwf : AStateWF s) :
    Acc (fun t u => SolverStep u t) s := by
  have hgen : ∀ m : Nat × Nat × Nat × Nat × Nat, ∀ s2 : AState,
      AStateWF s2 → solverMeasure s2 = m → Acc (fun t u => SolverStep u t) s2 := by
    intro m
    induction m using measureLt_wf.induction with
    | _ m ih =>
      intro s2 hwf2 hm
      refine Acc.intro s2 (fun t hstep => ?_)
      exact ih (solverMeasure t) (hm ▸ solverStep_measure_lt hstep hwf2) t
        (solverStep_wf hstep hwf2) rfl
  exact hgen (solverMeasure s) s hwf rfl

/-- Witness for C6: the two-node state `c4State` is well-formed, so every
solver run from it terminates. -/
theorem c6_solver_terminates_witness :
    Acc (fun t u => SolverStep u t) c4State :=
  c6_solver_terminates c4State (by unfold AStateWF; decide)
